import Mathlib

/-!
# dawn.cpp: sunrise simulator for a remote-controlled RGB LED strip

A shallow embedding of `public_html/sunrise-simulator/dawn.cpp`.

* The GPIO side effects of `sendBit` / `sendCommand` are recorded as a list of
  events (`Ev`), in program order.
* The global `currentColor` together with the list of opcodes passed to
  `sendCommand` and the list of high level calls made form the device record
  `Dev`; the local `inProgress` of `main` is added in `Sched`.
* `unsigned char` channels are natural numbers, every store is reduced
  modulo 256.
* The `while` loop of `setColor` is run with an explicit fuel argument.
* `getBB` is embedded twice: `getBB` with exact rational arithmetic, and `getBBFloat`
  with every rounding of the `float` and `double` operations written out; the
  roundings and the library functions `pow` and `log` are parameters. The scheduler
  takes the colour function as a parameter.
* `getSecsRemaining` is a function of the first line of the configuration file and of
  the fields of the local time; an exception thrown is an `Except.error`.
-/

namespace Dawn

/-! ## Constants -/

def RED_UP : Nat := 0b0010100011010111
def RED_DN : Nat := 0b0000100011110111
def GRN_UP : Nat := 0b1010100001010111
def GRN_DN : Nat := 0b1000100001110111
def BLU_UP : Nat := 0b0110100010010111
def BLU_DN : Nat := 0b0100100010110111
def POWER : Nat := 0b0000001011111101
def DIY1 : Nat := 0b0011000011001111
def DIY2 : Nat := 0b1011000001001111

def T_DOWN : Nat := 9000
def T_UP : Nat := 4500
def T_0 : Nat := 500
def T_1 : Nat := 1500
def T_BTWN : Nat := 500
def T_DELAY : Nat := 100000

def CMD_PIN : Nat := 7

def SUNRISE_LENGTH : Int := 3600
def HOLD_TIME : Int := 45
def UPDATE_PERIOD : Nat := 5
def DEMO : Int := 100001
def OFF : Int := 100002

/-- Logic level LOW of wiringPi. -/
def LOW : Bool := false
/-- Logic level HIGH of wiringPi. -/
def HIGH : Bool := true

/-! ## Low level protocol encoder -/

/-- One observable action of the protocol encoder. -/
inductive Ev where
  | digitalWrite (pin : Nat) (level : Bool)
  | delayMicroseconds (us : Nat)
  | piHiPri (pri : Nat)
  deriving DecidableEq

/-- The local `bitlen` of `sendBit` after the two `if` statements; it is declared
without an initial value, which is `none` here. -/
def sendBit.bitlen (bit : Bool) : Option Nat :=
  let bitlen0 : Option Nat := none
  let bitlen1 := if bit == false then some T_0 else bitlen0
  let bitlen2 := if bit == true then some T_1 else bitlen1
  bitlen2

/-- Embedding of `sendBit`: the events it emits, or `none` if `bitlen` were read
while still unassigned. -/
def sendBit (bit : Bool) : Option (List Ev) :=
  match sendBit.bitlen bit with
  | none => none
  | some bitlen =>
    some [Ev.digitalWrite CMD_PIN LOW, Ev.delayMicroseconds T_BTWN,
          Ev.digitalWrite CMD_PIN HIGH, Ev.delayMicroseconds bitlen]

/-- A `for` loop calling `sendBit (f i)` for `i = 0, 1, ..., n-1`. -/
def sendBits (f : Nat → Bool) : Nat → Option (List Ev)
  | 0 => some []
  | n + 1 =>
    match sendBits f n, sendBit (f n) with
    | some pre, some last => some (pre ++ last)
    | _, _ => none

/-- Embedding of `sendCommand`; `command` is a `uint16_t`. The argument of
`sendBit` is the conversion to `bool` of `command & (0x8000 >> bit)`. -/
def sendCommand (command : Nat) : Option (List Ev) :=
  match sendBits (fun _ => false) 8, sendBits (fun _ => true) 8,
        sendBits (fun bit => decide (command &&& (0x8000 >>> bit) ≠ 0)) 16 with
  | some zeroes, some ones, some cmd =>
    some ([Ev.piHiPri 99,
           Ev.digitalWrite CMD_PIN LOW, Ev.delayMicroseconds T_DOWN,
           Ev.digitalWrite CMD_PIN HIGH, Ev.delayMicroseconds T_UP]
          ++ zeroes ++ ones ++ cmd ++
          [Ev.digitalWrite CMD_PIN LOW, Ev.delayMicroseconds T_BTWN,
           Ev.digitalWrite CMD_PIN HIGH,
           Ev.delayMicroseconds T_DELAY,
           Ev.piHiPri 0])
  | _, _, _ => none

/-! ### Reading a trace -/

/-- The pin writes and delays of a trace: scheduling priority changes removed. -/
def pinDelayTrace (tr : List Ev) : List Ev :=
  tr.filter (fun e => match e with
    | Ev.piHiPri _ => false
    | _ => true)

/-- One bit-frame: LOW for `T_BTWN`, then HIGH for `len`. -/
def bitFrame (len : Nat) : List Ev :=
  [Ev.digitalWrite CMD_PIN LOW, Ev.delayMicroseconds T_BTWN,
   Ev.digitalWrite CMD_PIN HIGH, Ev.delayMicroseconds len]

/-- The bit-frames for a list of high durations, one after the other. -/
def frames : List Nat → List Ev
  | [] => []
  | len :: rest => bitFrame len ++ frames rest

/-- High duration of the `k`-th opcode bit: `T_1` if bit `15 - k` is set. -/
def opcodeLen (c k : Nat) : Nat := if c.testBit (15 - k) then T_1 else T_0

/-- The 32 high durations of a command: 8 zeroes, 8 ones, the opcode MSB first. -/
def bitLens (c : Nat) : List Nat :=
  List.replicate 8 T_0 ++ List.replicate 8 T_1 ++ (List.range 16).map (opcodeLen c)

/-- The durations for which the pin is held HIGH: every delay that directly
follows a write of HIGH. -/
def highHolds : List Ev → List Nat
  | Ev.digitalWrite _ true :: Ev.delayMicroseconds n :: rest => n :: highHolds rest
  | _ :: rest => highHolds rest
  | [] => []

/-- The high durations of the 16 opcode bit-frames of a command trace: they
follow the header hold and the 16 preamble frames. -/
def opcodeHighs (tr : List Ev) : List Nat := ((highHolds tr).drop 17).take 16

/-- Read a list of high durations as a big-endian binary number (`T_1` is 1). -/
def readBack (ds : List Nat) : Nat :=
  ds.foldl (fun acc d => 2 * acc + (if d = T_1 then 1 else 0)) 0

/-! ## Colours and the device record -/

/-- Class `Color`: three `unsigned char` channels. -/
structure Color where
  r : Nat
  g : Nat
  b : Nat
  deriving DecidableEq

/-- Every channel fits an `unsigned char`. -/
def Color.wf (c : Color) : Prop := c.r < 256 ∧ c.g < 256 ∧ c.b < 256

instance (c : Color) : Decidable c.wf := by
  unfold Color.wf
  infer_instance

/-- Embedding of `Color::operator*=` for a factor `num / den`, in exact arithmetic:
each channel is multiplied, truncated towards zero and stored back in an
`unsigned char`. The product is the exact one, as it is in `float` for the factor
`0.25` (that is `1 / 4`) which `setColor` uses; for other factors the `float`
product is rounded before it is truncated, which `Color.mulAssignFloat` embeds. -/
def Color.mulAssign (c : Color) (num den : Nat) : Color :=
  { r := (c.r * num / den) % 256
    g := (c.g * num / den) % 256
    b := (c.b * num / den) % 256 }

/-- Embedding of `Color::operator==`. -/
def Color.eq (c rhs : Color) : Bool :=
  if c.r == rhs.r && c.g == rhs.g && c.b == rhs.b then true else false

/-- Embedding of `Color::operator!=`. -/
def Color.ne (c rhs : Color) : Bool := !(c.eq rhs)

/-- A call of one of the two high level functions. -/
inductive Call where
  | setColor (color : Color)
  | resetColor
  deriving DecidableEq

/-- The global `currentColor`, the opcodes passed to `sendCommand` so far (in
call order) and the high level calls entered so far. -/
structure Dev where
  currentColor : Color
  sent : List Nat
  calls : List Call
  deriving DecidableEq

/-- A call `sendCommand(op)` seen from the controller: the opcode is recorded. -/
def Dev.send (d : Dev) (op : Nat) : Dev := { d with sent := d.sent ++ [op] }

/-! ## setColor -/

/-- The statement `if(currentColor.r < color.r) { sendCommand(RED_UP); currentColor.r++; }`. -/
def stepRedUp (color : Color) (d : Dev) : Dev :=
  if d.currentColor.r < color.r then
    let d1 := d.send RED_UP
    { d1 with currentColor := { d1.currentColor with r := (d1.currentColor.r + 1) % 256 } }
  else d

/-- The statement `if(currentColor.r > color.r) { sendCommand(RED_DN); currentColor.r--; }`. -/
def stepRedDn (color : Color) (d : Dev) : Dev :=
  if d.currentColor.r > color.r then
    let d1 := d.send RED_DN
    { d1 with currentColor := { d1.currentColor with r := (d1.currentColor.r + 255) % 256 } }
  else d

/-- The statement `if(currentColor.g < color.g) { sendCommand(GRN_UP); currentColor.g++; }`. -/
def stepGrnUp (color : Color) (d : Dev) : Dev :=
  if d.currentColor.g < color.g then
    let d1 := d.send GRN_UP
    { d1 with currentColor := { d1.currentColor with g := (d1.currentColor.g + 1) % 256 } }
  else d

/-- The statement `if(currentColor.g > color.g) { sendCommand(GRN_DN); currentColor.g--; }`. -/
def stepGrnDn (color : Color) (d : Dev) : Dev :=
  if d.currentColor.g > color.g then
    let d1 := d.send GRN_DN
    { d1 with currentColor := { d1.currentColor with g := (d1.currentColor.g + 255) % 256 } }
  else d

/-- The statement `if(currentColor.b < color.b) { sendCommand(BLU_UP); currentColor.b++; }`. -/
def stepBluUp (color : Color) (d : Dev) : Dev :=
  if d.currentColor.b < color.b then
    let d1 := d.send BLU_UP
    { d1 with currentColor := { d1.currentColor with b := (d1.currentColor.b + 1) % 256 } }
  else d

/-- The statement `if(currentColor.b > color.b) { sendCommand(BLU_DN); currentColor.b--; }`. -/
def stepBluDn (color : Color) (d : Dev) : Dev :=
  if d.currentColor.b > color.b then
    let d1 := d.send BLU_DN
    { d1 with currentColor := { d1.currentColor with b := (d1.currentColor.b + 255) % 256 } }
  else d

/-- The six statements of the body of the `while` loop, in program order. -/
def loopSteps : List (Color → Dev → Dev) :=
  [stepRedUp, stepRedDn, stepGrnUp, stepGrnDn, stepBluUp, stepBluDn]

/-- Run a list of statements one after the other. -/
def runSteps (color : Color) (steps : List (Color → Dev → Dev)) (d : Dev) : Dev :=
  steps.foldl (fun d step => step color d) d

/-- The states after each `if` statement of a list, in order (the state inside a
statement, between its `sendCommand` and its counter update, is not among them: see
`allPointsOf`). -/
def pointsOf (color : Color) : List (Color → Dev → Dev) → Dev → List Dev
  | [], _ => []
  | step :: rest, d => step color d :: pointsOf color rest (step color d)

/-- One iteration of the `while` loop of `setColor`. -/
def loopBody (color : Color) (d : Dev) : Dev := runSteps color loopSteps d

/-- The loop `while(currentColor != color) { ... }` run with at most `fuel`
iterations: the state on exit and the number of iterations made, or `none` when
the fuel runs out. -/
def setColorLoop (color : Color) : Nat → Dev → Option (Dev × Nat)
  | 0, d => if d.currentColor.ne color then none else some (d, 0)
  | fuel + 1, d =>
    if d.currentColor.ne color then
      match setColorLoop color fuel (loopBody color d) with
      | some (d1, n) => some (d1, n + 1)
      | none => none
    else some (d, 0)

/-- The state in which `setColor(color)` enters its `while` loop: the call is
recorded and `sendCommand(DIY1)` has been made. -/
def setColorEntry (color : Color) (d : Dev) : Dev :=
  ({ d with calls := d.calls ++ [Call.setColor color] }).send DIY1

/-- Embedding of `setColor` with the iteration count of its loop. -/
def setColorRun (fuel : Nat) (color : Color) (d : Dev) : Option (Dev × Nat) :=
  setColorLoop (color.mulAssign 1 4) fuel (setColorEntry color d)

/-- Embedding of `setColor`. -/
def setColor (fuel : Nat) (color : Color) (d : Dev) : Option Dev :=
  (setColorRun fuel color d).map Prod.fst

/-- The states at the boundaries of the `if` statements inside the `while` loop. -/
def loopPoints (color : Color) : Nat → Dev → List Dev
  | 0, _ => []
  | fuel + 1, d =>
    if d.currentColor.ne color then
      pointsOf color loopSteps d ++ loopPoints color fuel (loopBody color d)
    else []

/-- The states of a call `setColor(color)` at the boundaries of its statements: at
entry, after `sendCommand(DIY1)`, and after each `if` statement of each loop iteration
(the states inside an `if` statement are added in `setColorAllPoints`). -/
def setColorPoints (fuel : Nat) (color : Color) (d : Dev) : List Dev :=
  d :: setColorEntry color d ::
    loopPoints (color.mulAssign 1 4) fuel (setColorEntry color d)

/-- The first `n` iterations of the `for` loop of `resetColor`. -/
def resetColorLoop : Nat → Dev → Dev
  | 0, d => d
  | n + 1, d => (((resetColorLoop n d).send RED_DN).send GRN_DN).send BLU_DN

/-- Embedding of `resetColor`. -/
def resetColor (d : Dev) : Dev :=
  let d1 := resetColorLoop 80 { d with calls := d.calls ++ [Call.resetColor] }
  { d1 with currentColor := Color.mk 0 0 0 }

/-! ## demo and the scheduler tick

`getBB` computes with `float`, `pow` and `log`; the scheduler is embedded over
an arbitrary function `getBB` from temperatures to colours, and temperatures
are exact rationals. -/

/-- The temperature of iteration `i` of `demo`. -/
def demoTemp (i : Nat) : ℚ :=
  ((i : ℚ) / 60) ^ 2 * ((i : ℚ) * (4800 / 60)) + 663

/-- The first `n` iterations of the `for` loop of `demo`. -/
def demoLoop (getBB : ℚ → Color) (fuel : Nat) : Nat → Dev → Option Dev
  | 0, d => some d
  | n + 1, d =>
    match demoLoop getBB fuel n d with
    | some d1 => setColor fuel (getBB (demoTemp n)) d1
    | none => none

/-- Embedding of `demo`. -/
def demo (getBB : ℚ → Color) (fuel : Nat) (d : Dev) : Option Dev :=
  (demoLoop getBB fuel 60 d).map resetColor

/-- The temperature `main` computes from `secsRemaining`. -/
def sunriseTemp (secsRemaining : Int) : ℚ :=
  (((SUNRISE_LENGTH - secsRemaining : Int) : ℚ) / (SUNRISE_LENGTH : ℚ)) ^ 2
    * (((SUNRISE_LENGTH - secsRemaining : Int) : ℚ) * (4800 / (SUNRISE_LENGTH : ℚ))) + 663

/-- The state of `main`: the device record and the local `inProgress`. -/
structure Sched where
  dev : Dev
  inProgress : Bool
  deriving DecidableEq

/-- One iteration of the main loop, from the value `getSecsRemaining()` returned. -/
def tick (getBB : ℚ → Color) (fuel : Nat) (secsRemaining : Int) (s : Sched) : Option Sched :=
  if secsRemaining < 0 then some s
  else
    match (if secsRemaining == DEMO then
            (demo getBB fuel s.dev).map (fun d => { s with dev := d })
          else some s) with
    | none => none
    | some s1 =>
      if secsRemaining == OFF then some s1
      else
        let s2 : Sched :=
          if secsRemaining ≤ SUNRISE_LENGTH + 60 && !s1.inProgress then
            { dev := resetColor s1.dev, inProgress := true }
          else s1
        match (if secsRemaining ≤ SUNRISE_LENGTH && s2.inProgress then
                (setColor fuel (getBB (sunriseTemp secsRemaining)) s2.dev).map
                  (fun d => { s2 with dev := d })
              else some s2) with
        | none => none
        | some s3 =>
          if secsRemaining > 24 * 3600 - HOLD_TIME then some s3
          else if secsRemaining ≤ 24 * 3600 - HOLD_TIME &&
                  secsRemaining > SUNRISE_LENGTH + 60 && s3.inProgress then
            some { dev := resetColor s3.dev, inProgress := false }
          else some s3

/-- Consecutive iterations of the main loop, one per value of `secsRemaining`. -/
def runTicks (getBB : ℚ → Color) (fuel : Nat) : List Int → Sched → Option Sched
  | [], s => some s
  | secs :: rest, s =>
    match tick getBB fuel secs s with
    | some s1 => runTicks getBB fuel rest s1
    | none => none

/-- Embedding of `clamp` (the `float` overload, which the calls in `getBB` select). -/
def clamp (value minimum maximum : ℚ) : ℚ :=
  if value ≥ maximum then maximum
  else if value ≤ minimum then minimum
  else value

/-- Conversion of a `float` to `unsigned char`: the fraction is discarded (this is
the floor on the non-negative values that `getBB` stores). -/
def toUChar (x : ℚ) : Nat := (Int.toNat (Int.floor x)) % 256

/-- The colour `bbColor` of `getBB` before the brightness is applied; `temp` is
the temperature after `temp /= 100`. -/
def getBB.hue (pow : ℚ → ℚ → ℚ) (log : ℚ → ℚ) (temp : ℚ) : Color :=
  { r := if temp ≤ 66 then 255
         else toUChar (clamp (329.698727446 * pow (temp - 60) (-0.1332047592)) 0 255)
    g := if temp ≤ 66 then
           toUChar (clamp ((99.4708025861 * log temp - 161.1195681661) * 0.75) 0 255)
         else toUChar (clamp (288.1221695283 * pow (temp - 60) (-0.0755148492)) 0 255)
    b := if temp ≥ 66 then 255
         else if temp ≤ 19 then 0
         else toUChar (clamp (138.5177312231 * log (temp - 10) - 305.0447927307) 0 255) }

/-- The local `brightness` of `getBB` after clamping; `temp` is the temperature
after `temp /= 100`. -/
def getBB.brightness (pow : ℚ → ℚ → ℚ) (temp : ℚ) : ℚ :=
  clamp (pow ((temp - 6.59) / 35) 0.2) 0.0 1.0

/-- Embedding of `getBB`. -/
def getBB (pow : ℚ → ℚ → ℚ) (log : ℚ → ℚ) (temp : ℚ) : Color :=
  let temp := temp / 100
  let bbColor := getBB.hue pow log temp
  let brightness := getBB.brightness pow temp
  bbColor.mulAssign (Int.toNat brightness.num) brightness.den

/-! ## getBB with the roundings of floating point arithmetic

The same function with every rounding written out: each `float` or `double`
operation is the exact operation followed by a rounding, and the conversion of a
`float` to `unsigned char` is defined only for values that fit. The roundings and the
library functions are the fields of `FloatOps`. -/

/-- The floating point operations `getBB` relies on: the rounding of a number to
`float` and to `double`, and the library functions `pow` and `log` on `double`. -/
structure FloatOps where
  f32 : ℚ → ℚ
  f64 : ℚ → ℚ
  pow : ℚ → ℚ → ℚ
  log : ℚ → ℚ

/-- What is assumed of a rounding: it is monotone, and exact on every `m / 2^k`
with `|m| <= 2^24` and `k <= 64` (these are `float` and `double` values). -/
def IsRounding (r : ℚ → ℚ) : Prop :=
  (∀ x y : ℚ, x ≤ y → r x ≤ r y) ∧
  (∀ (m : Int) (k : Nat), |m| ≤ 16777216 → k ≤ 64 → r ((m : ℚ) / 2 ^ k) = (m : ℚ) / 2 ^ k)

/-- Conversion of a `float` to `unsigned char`: the fraction is discarded; the
behaviour is undefined (`none`) when the truncated value is not in 0..255. -/
def floatToUChar (x : ℚ) : Option Nat :=
  if -1 < x ∧ x < 256 then some (Int.toNat (Int.floor x)) else none

/-- Embedding of `Color::operator*=` for a `float` factor: each channel is
converted to `float`, multiplied in `float` and converted back. -/
def Color.mulAssignFloat (f32 : ℚ → ℚ) (c : Color) (factor : ℚ) : Option Color :=
  match floatToUChar (f32 ((c.r : ℚ) * factor)), floatToUChar (f32 ((c.g : ℚ) * factor)),
        floatToUChar (f32 ((c.b : ℚ) * factor)) with
  | some r, some g, some b => some { r := r, g := g, b := b }
  | _, _, _ => none

/-- The channel `bbColor.r` of `getBB` before the brightness is applied; `temp` is
the `float` temperature after `temp /= 100`. -/
def getBBFloat.red (F : FloatOps) (temp : ℚ) : Option Nat :=
  if temp ≤ 66 then some 255
  else
    let red0 := F.f32 (temp - 60)
    let red1 := F.f32 (F.f64 (F.f64 329.698727446 * F.pow red0 (-(F.f64 0.1332047592))))
    floatToUChar (clamp red1 0 255)

/-- The channel `bbColor.g` of `getBB` before the brightness is applied. -/
def getBBFloat.grn (F : FloatOps) (temp : ℚ) : Option Nat :=
  if temp ≤ 66 then
    let grn0 := temp
    let grn1 := F.f32 (F.f64 (F.f64 (F.f64 99.4708025861 * F.log grn0) - F.f64 161.1195681661))
    let grn2 := F.f32 (F.f64 (grn1 * F.f64 0.75))
    floatToUChar (clamp grn2 0 255)
  else
    let grn0 := F.f32 (temp - 60)
    let grn1 := F.f32 (F.f64 (F.f64 288.1221695283 * F.pow grn0 (-(F.f64 0.0755148492))))
    floatToUChar (clamp grn1 0 255)

/-- The channel `bbColor.b` of `getBB` before the brightness is applied. -/
def getBBFloat.blu (F : FloatOps) (temp : ℚ) : Option Nat :=
  if temp ≥ 66 then some 255
  else if temp ≤ 19 then some 0
  else
    let blu0 := F.f32 (temp - 10)
    let blu1 := F.f32 (F.f64 (F.f64 (F.f64 138.5177312231 * F.log blu0) - F.f64 305.0447927307))
    floatToUChar (clamp blu1 0 255)

/-- The base `(float)(temp-6.59)/35` of the brightness power. -/
def getBBFloat.base (F : FloatOps) (temp : ℚ) : ℚ :=
  F.f32 (F.f32 (F.f64 (temp - F.f64 6.59)) / 35)

/-- The local `brightness` of `getBB` after clamping. -/
def getBBFloat.brightness (F : FloatOps) (temp : ℚ) : ℚ :=
  clamp (F.f32 (F.pow (getBBFloat.base F temp) (F.f64 0.2))) 0.0 1.0

/-- Embedding of `getBB` with its roundings; `none` is undefined behaviour of a
conversion to `unsigned char`. -/
def getBBFloat (F : FloatOps) (temp : ℚ) : Option Color :=
  let temp1 := F.f32 (temp / 100)
  match getBBFloat.red F temp1, getBBFloat.grn F temp1, getBBFloat.blu F temp1 with
  | some r, some g, some b =>
    Color.mulAssignFloat F.f32 { r := r, g := g, b := b } (getBBFloat.brightness F temp1)
  | _, _, _ => none

/-! ## getSecsRemaining -/

/-- The exceptions the standard library calls of `getSecsRemaining` throw. -/
inductive Exn where
  | out_of_range
  | invalid_argument
  deriving DecidableEq

/-- The C function `isspace` in the default locale. -/
def isspace (c : Char) : Bool := c.toNat == 32 || (9 ≤ c.toNat && c.toNat ≤ 13)

/-- The call `s.substr(pos, n)`. -/
def substr (s : List Char) (pos n : Nat) : Except Exn (List Char) :=
  if pos > s.length then Except.error Exn.out_of_range
  else Except.ok ((s.drop pos).take n)

/-- The call `stoi(s)`: leading white space is skipped, an optional sign is read,
then the longest run of decimal digits; no digit is `invalid_argument`, a value
that does not fit an `int` is `out_of_range`. -/
def stoi (s : List Char) : Except Exn Int :=
  let s1 := s.dropWhile isspace
  let neg : Bool := s1.head? == some '-'
  let s2 := match s1 with
    | c :: rest => if c = '-' ∨ c = '+' then rest else s1
    | [] => []
  let digits := s2.takeWhile Char.isDigit
  if digits = [] then Except.error Exn.invalid_argument
  else
    let v : Int := digits.foldl (fun acc c => 10 * acc + ((c.toNat : Int) - 48)) 0
    let r : Int := if neg then -v else v
    if r < -2147483648 ∨ r > 2147483647 then Except.error Exn.out_of_range
    else Except.ok r

/-- Embedding of `getSecsRemaining`. `file` is the first line of
`/etc/dawn/dawn.conf`, or `none` when the file cannot be opened; `tm_hour`, `tm_min`
and `tm_sec` are the fields of the local time. An exception thrown is
`Except.error`. -/
def getSecsRemaining (file : Option (List Char)) (tm_hour tm_min tm_sec : Int) :
    Except Exn Int :=
  match file with
  | none => Except.ok (-1)
  | some line =>
    if line = ['d', 'e', 'm', 'o'] then Except.ok DEMO
    else if line = ['o', 'f', 'f'] then Except.ok OFF
    else
      let line1 := line.erase ':'
      match substr line1 0 2 with
      | Except.error e => Except.error e
      | Except.ok dawnHour =>
        match substr line1 2 2 with
        | Except.error e => Except.error e
        | Except.ok dawnMinute =>
          match stoi dawnHour with
          | Except.error e => Except.error e
          | Except.ok hour =>
            match stoi dawnMinute with
            | Except.error e => Except.error e
            | Except.ok minute =>
              let secs0 : Int := 0
              let secs1 := secs0 + (hour - tm_hour) * 3600
              let secs2 := secs1 + (minute - tm_min) * 60
              let secs3 := secs2 - tm_sec
              let secs4 := if secs3 < 0 then secs3 + 24 * 3600 else secs3
              Except.ok secs4

/-! ## Vocabulary of the properties -/

/-- Distance between two channel values. -/
def absDiff (a b : Nat) : Nat := if a < b then b - a else a - b

/-- Manhattan distance between two colours. -/
def manhattan (c t : Color) : Nat := absDiff c.r t.r + absDiff c.g t.g + absDiff c.b t.b

/-- The scaled target of `setColor`: each channel divided by 4, rounded down. -/
def scaled (t : Color) : Color := { r := t.r / 4, g := t.g / 4, b := t.b / 4 }

/-- One step of a channel value `a` towards `b`. -/
def toward (a b : Nat) : Nat := if a < b then a + 1 else if a > b then a - 1 else a

/-- The command one loop iteration sends for a channel at `a` with target `b`. -/
def chanCmds (up dn a b : Nat) : List Nat := if a < b then [up] else if a > b then [dn] else []

/-- The commands one loop iteration sends, from colour `c` towards `t`. -/
def bodyCmds (c t : Color) : List Nat :=
  chanCmds RED_UP RED_DN c.r t.r ++ chanCmds GRN_UP GRN_DN c.g t.g
    ++ chanCmds BLU_UP BLU_DN c.b t.b

/-- The six step opcodes. -/
def stepOpcodes : List Nat := [RED_UP, RED_DN, GRN_UP, GRN_DN, BLU_UP, BLU_DN]

/-- What the step commands sent while converging from `c` to `t` look like: as
many as the Manhattan distance, per channel only increments (as many as the
target is above) or only decrements (as many as it is below), all of them step
opcodes. -/
def StepsFor (c t : Color) (steps : List Nat) : Prop :=
  steps.length = manhattan c t ∧
  steps.count RED_UP = t.r - c.r ∧ steps.count RED_DN = c.r - t.r ∧
  steps.count GRN_UP = t.g - c.g ∧ steps.count GRN_DN = c.g - t.g ∧
  steps.count BLU_UP = t.b - c.b ∧ steps.count BLU_DN = c.b - t.b ∧
  ∀ op ∈ steps, op ∈ stepOpcodes

/-- Number of `resetColor` calls in a call list. -/
def resetCalls (cs : List Call) : Nat := cs.count Call.resetColor


/-- The sum of all the delays of a trace, in microseconds. -/
def totalDelay : List Ev → Nat
  | [] => 0
  | Ev.delayMicroseconds us :: rest => us + totalDelay rest
  | _ :: rest => totalDelay rest

/-- The nine opcodes the program defines. -/
def opcodes : List Nat := [RED_UP, RED_DN, GRN_UP, GRN_DN, BLU_UP, BLU_DN, POWER, DIY1, DIY2]

/-- The progress fraction `(SUNRISE_LENGTH - secsRemaining) / SUNRISE_LENGTH` that
`main` squares in the temperature formula. -/
def sunriseProgress (secsRemaining : Int) : ℚ :=
  ((SUNRISE_LENGTH - secsRemaining : Int) : ℚ) / (SUNRISE_LENGTH : ℚ)

/-- A call of the colour controller in a sequence of calls. -/
inductive Op where
  | set (target : Color)
  | reset
  deriving DecidableEq

/-- Consecutive calls of `setColor` and `resetColor`. -/
def runOps (fuel : Nat) : List Op → Dev → Option Dev
  | [], d => some d
  | Op.set target :: rest, d =>
    match setColor fuel target d with
    | some d1 => runOps fuel rest d1
    | none => none
  | Op.reset :: rest, d => runOps fuel rest (resetColor d)

/-- Every channel is in device resolution, 0..63. -/
def Color.inDevice (c : Color) : Prop := c.r ≤ 63 ∧ c.g ≤ 63 ∧ c.b ≤ 63

/-- The character of the decimal digit `d`. -/
def digitChar (d : Nat) : Char := Char.ofNat (48 + d)

/-- The two decimal digits of a number below 100. -/
def twoDigits (n : Nat) : List Char := [digitChar (n / 10), digitChar (n % 10)]

/-- A field begins with a number: after its leading white space, if any, and one
optional sign, the next character is a decimal digit. -/
def leadsNumber (f : List Char) : Bool :=
  match f.dropWhile isspace with
  | [] => false
  | c :: rest =>
    if c = '-' ∨ c = '+' then
      match rest with
      | [] => false
      | d :: _ => d.isDigit
    else c.isDigit

/-! # Theorems -/

/-! ## Protocol encoder -/

theorem sendBit_eq (bit : Bool) :
    sendBit bit = some (bitFrame (if bit then T_1 else T_0)) := by
  cases bit <;> rfl

theorem frames_append (xs ys : List Nat) : frames (xs ++ ys) = frames xs ++ frames ys := by
  induction xs with
  | nil => rfl
  | cons x xs ih => simp [frames, ih]

theorem sendBits_eq (f : Nat → Bool) (n : Nat) :
    sendBits f n = some (frames ((List.range n).map (fun i => if f i then T_1 else T_0))) := by
  induction n with
  | zero => rfl
  | succ n ih =>
    simp only [sendBits, ih, sendBit_eq, List.range_succ, List.map_append, frames_append,
      List.map_cons, List.map_nil, frames, List.append_nil]

theorem shift_mask (k : Nat) (hk : k < 16) : 0x8000 >>> k = 2 ^ (15 - k) := by
  interval_cases k <;> rfl

theorem mask_test (c k : Nat) (hk : k < 16) :
    decide (c &&& (0x8000 >>> k) ≠ 0) = c.testBit (15 - k) := by
  rw [shift_mask k hk, Nat.and_two_pow]
  cases h : c.testBit (15 - k) <;> simp

theorem map_const_range (n v : Nat) :
    (List.range n).map (fun _ => v) = List.replicate n v := by
  induction n with
  | zero => rfl
  | succ n ih =>
    rw [List.range_succ, List.map_append, ih, List.replicate_succ']
    rfl

theorem sendCommand_eq (c : Nat) :
    sendCommand c = some ([Ev.piHiPri 99,
           Ev.digitalWrite CMD_PIN LOW, Ev.delayMicroseconds T_DOWN,
           Ev.digitalWrite CMD_PIN HIGH, Ev.delayMicroseconds T_UP]
          ++ frames (bitLens c) ++
          [Ev.digitalWrite CMD_PIN LOW, Ev.delayMicroseconds T_BTWN,
           Ev.digitalWrite CMD_PIN HIGH,
           Ev.delayMicroseconds T_DELAY,
           Ev.piHiPri 0]) := by
  have h3 : (List.range 16).map
      (fun i => if decide (c &&& (0x8000 >>> i) ≠ 0) = true then T_1 else T_0)
      = (List.range 16).map (opcodeLen c) := by
    apply List.map_congr_left
    intro k hk
    rw [mask_test c k (List.mem_range.mp hk)]
    rfl
  have e1 : sendBits (fun _ => false) 8 = some (frames (List.replicate 8 T_0)) := by
    rw [sendBits_eq]
    exact congrArg (fun l => some (frames l)) (map_const_range 8 T_0)
  have e2 : sendBits (fun _ => true) 8 = some (frames (List.replicate 8 T_1)) := by
    rw [sendBits_eq]
    exact congrArg (fun l => some (frames l)) (map_const_range 8 T_1)
  have e3 : sendBits (fun bit => decide (c &&& (0x8000 >>> bit) ≠ 0)) 16
      = some (frames ((List.range 16).map (opcodeLen c))) := by
    rw [sendBits_eq, h3]
  unfold sendCommand
  rw [e3, e1, e2]
  simp only [bitLens, frames_append, List.append_assoc]

theorem pinDelayTrace_frames (ls : List Nat) : pinDelayTrace (frames ls) = frames ls := by
  induction ls with
  | nil => rfl
  | cons l ls ih =>
    unfold pinDelayTrace at ih ⊢
    rw [frames, List.filter_append, ih]
    simp [bitFrame]

theorem highHolds_frames (ls : List Nat) (rest : List Ev) :
    highHolds (frames ls ++ rest) = ls ++ highHolds rest := by
  induction ls with
  | nil => rfl
  | cons l ls ih =>
    show highHolds (Ev.digitalWrite CMD_PIN false :: Ev.delayMicroseconds T_BTWN ::
      Ev.digitalWrite CMD_PIN true :: Ev.delayMicroseconds l :: (frames ls ++ rest)) = _
    simp only [highHolds, ih]
    rfl

theorem readBack_snoc (ds : List Nat) (d : Nat) :
    readBack (ds ++ [d]) = 2 * readBack ds + (if d = T_1 then 1 else 0) := by
  simp [readBack, List.foldl_append]

theorem readBack_bits (n : Nat) : ∀ c : Nat,
    readBack ((List.range n).map (fun k => if c.testBit (n - 1 - k) then T_1 else T_0))
      = c % 2 ^ n := by
  induction n with
  | zero => intro c; simp [readBack, Nat.mod_one]
  | succ n ih =>
    intro c
    have hpre : (List.range n).map (fun k => if c.testBit (n + 1 - 1 - k) then T_1 else T_0)
        = (List.range n).map (fun k => if (c / 2).testBit (n - 1 - k) then T_1 else T_0) := by
      apply List.map_congr_left
      intro k hk
      have hk1 : k < n := List.mem_range.mp hk
      have e : n + 1 - 1 - k = (n - 1 - k) + 1 := by omega
      rw [e, Nat.testBit_succ]
    rw [List.range_succ, List.map_append, hpre, List.map_cons, List.map_nil, readBack_snoc, ih]
    have e0 : n + 1 - 1 - n = 0 := by omega
    rw [e0, pow_succ, mul_comm (2 ^ n) 2, Nat.mod_mul]
    have hb : (if (if c.testBit 0 = true then T_1 else T_0) = T_1 then 1 else 0) = c % 2 := by
      rw [Nat.testBit_zero]
      rcases Nat.mod_two_eq_zero_or_one c with h | h <;> simp [h, T_0, T_1]
    rw [hb]
    omega

theorem readBack_opcode (c : Nat) (hc : c < 65536) :
    readBack ((List.range 16).map (opcodeLen c)) = c := by
  have h := readBack_bits 16 c
  have e : (2 : Nat) ^ 16 = 65536 := by norm_num
  rw [e, Nat.mod_eq_of_lt hc] at h
  exact h

theorem opcodeHighs_sendCommand (c : Nat) (tr : List Ev) (h : sendCommand c = some tr) :
    opcodeHighs tr = (List.range 16).map (opcodeLen c) := by
  rw [sendCommand_eq] at h
  have htr := (Option.some.inj h).symm
  have hh : highHolds tr = (T_UP :: (List.replicate 8 T_0 ++ List.replicate 8 T_1))
      ++ ((List.range 16).map (opcodeLen c) ++ [T_DELAY]) := by
    rw [htr]
    simp only [List.cons_append, List.nil_append, highHolds, HIGH, LOW, highHolds_frames, bitLens,
      List.append_assoc]
    rfl
  unfold opcodeHighs
  rw [hh, List.drop_left' (by simp), List.take_left' (by simp)]

/-! ## setColor -/

theorem red_steps (t : Color) (d : Dev) (hr : d.currentColor.r < 256) (ht : t.r < 256) :
    stepRedDn t (stepRedUp t d) =
      { currentColor := { d.currentColor with r := toward d.currentColor.r t.r }
        sent := d.sent ++ chanCmds RED_UP RED_DN d.currentColor.r t.r
        calls := d.calls } := by
  obtain ⟨⟨r, g, b⟩, sent, calls⟩ := d
  simp only at hr
  unfold stepRedDn stepRedUp toward chanCmds Dev.send
  by_cases h1 : r < t.r
  · have e : (r + 1) % 256 = r + 1 := Nat.mod_eq_of_lt (by omega)
    have h2 : ¬ (r + 1 > t.r) := by omega
    simp [h1, e, h2]
  · by_cases h2 : r > t.r
    · have e : (r + 255) % 256 = r - 1 := by omega
      simp [h1, h2, e]
    · simp [h1, h2]

theorem grn_steps (t : Color) (d : Dev) (hg : d.currentColor.g < 256) (ht : t.g < 256) :
    stepGrnDn t (stepGrnUp t d) =
      { currentColor := { d.currentColor with g := toward d.currentColor.g t.g }
        sent := d.sent ++ chanCmds GRN_UP GRN_DN d.currentColor.g t.g
        calls := d.calls } := by
  obtain ⟨⟨r, g, b⟩, sent, calls⟩ := d
  simp only at hg
  unfold stepGrnDn stepGrnUp toward chanCmds Dev.send
  by_cases h1 : g < t.g
  · have e : (g + 1) % 256 = g + 1 := Nat.mod_eq_of_lt (by omega)
    have h2 : ¬ (g + 1 > t.g) := by omega
    simp [h1, e, h2]
  · by_cases h2 : g > t.g
    · have e : (g + 255) % 256 = g - 1 := by omega
      simp [h1, h2, e]
    · simp [h1, h2]

theorem blu_steps (t : Color) (d : Dev) (hb : d.currentColor.b < 256) (ht : t.b < 256) :
    stepBluDn t (stepBluUp t d) =
      { currentColor := { d.currentColor with b := toward d.currentColor.b t.b }
        sent := d.sent ++ chanCmds BLU_UP BLU_DN d.currentColor.b t.b
        calls := d.calls } := by
  obtain ⟨⟨r, g, b⟩, sent, calls⟩ := d
  simp only at hb
  unfold stepBluDn stepBluUp toward chanCmds Dev.send
  by_cases h1 : b < t.b
  · have e : (b + 1) % 256 = b + 1 := Nat.mod_eq_of_lt (by omega)
    have h2 : ¬ (b + 1 > t.b) := by omega
    simp [h1, e, h2]
  · by_cases h2 : b > t.b
    · have e : (b + 255) % 256 = b - 1 := by omega
      simp [h1, h2, e]
    · simp [h1, h2]

theorem loopBody_eq (t : Color) (d : Dev) (hd : d.currentColor.wf) (ht : t.wf) :
    loopBody t d =
      { currentColor := { r := toward d.currentColor.r t.r
                          g := toward d.currentColor.g t.g
                          b := toward d.currentColor.b t.b }
        sent := d.sent ++ bodyCmds d.currentColor t
        calls := d.calls } := by
  show stepBluDn t (stepBluUp t (stepGrnDn t (stepGrnUp t (stepRedDn t (stepRedUp t d))))) = _
  rw [red_steps t d hd.1 ht.1, grn_steps t _ ?_ ht.2.1, blu_steps t _ ?_ ht.2.2]
  · simp [bodyCmds, List.append_assoc]
  · exact hd.2.2
  · exact hd.2.1

theorem toward_lt (a b : Nat) (ha : a < 256) (hb : b < 256) : toward a b < 256 := by
  unfold toward
  split_ifs <;> omega

theorem chan_dist (up dn a b : Nat) :
    absDiff (toward a b) b + (chanCmds up dn a b).length = absDiff a b := by
  unfold absDiff toward chanCmds
  split_ifs <;> simp <;> omega

theorem chan_count_up (up dn a b : Nat) (h : up ≠ dn) :
    (chanCmds up dn a b).count up + (b - toward a b) = b - a := by
  unfold toward chanCmds
  split_ifs <;> simp [h] <;> omega

theorem chan_count_dn (up dn a b : Nat) (h : up ≠ dn) :
    (chanCmds up dn a b).count dn + (toward a b - b) = a - b := by
  unfold toward chanCmds
  split_ifs <;> simp [h.symm] <;> omega

theorem chan_count_other (up dn a b x : Nat) (h1 : up ≠ x) (h2 : dn ≠ x) :
    (chanCmds up dn a b).count x = 0 := by
  unfold chanCmds
  split_ifs
  · simp [List.count_cons, h1]
  · simp [List.count_cons, h2]
  · rfl

theorem chan_mem (up dn a b x : Nat) (h : x ∈ chanCmds up dn a b) : x = up ∨ x = dn := by
  unfold chanCmds at h
  split_ifs at h <;> simp at h
  · exact Or.inl h
  · exact Or.inr h

theorem Color.ne_iff (c t : Color) : c.ne t = true ↔ c ≠ t := by
  obtain ⟨r, g, b⟩ := c
  obtain ⟨r2, g2, b2⟩ := t
  simp [Color.ne, Color.eq]
  tauto

theorem manhattan_pos (c t : Color) (h : c ≠ t) : 0 < (bodyCmds c t).length := by
  obtain ⟨r, g, b⟩ := c
  obtain ⟨r2, g2, b2⟩ := t
  by_contra h0
  apply h
  simp only [bodyCmds, chanCmds, List.length_append] at h0
  have hr : r = r2 := by
    by_contra hne
    rcases Nat.lt_or_gt_of_ne hne with h1 | h1
    · simp [h1] at h0
    · have : ¬ r < r2 := by omega
      simp [this, h1] at h0
  have hg : g = g2 := by
    by_contra hne
    rcases Nat.lt_or_gt_of_ne hne with h1 | h1
    · simp [h1] at h0
    · have : ¬ g < g2 := by omega
      simp [this, h1] at h0
  have hb : b = b2 := by
    by_contra hne
    rcases Nat.lt_or_gt_of_ne hne with h1 | h1
    · simp [h1] at h0
    · have : ¬ b < b2 := by omega
      simp [this, h1] at h0
  rw [hr, hg, hb]

theorem manhattan_self (t : Color) : manhattan t t = 0 := by
  simp [manhattan, absDiff]

theorem eq_of_manhattan_zero (c t : Color) (h : manhattan c t = 0) : c = t := by
  obtain ⟨r, g, b⟩ := c
  obtain ⟨r2, g2, b2⟩ := t
  simp only [manhattan, absDiff] at h
  have hr : r = r2 := by split_ifs at h <;> omega
  have hg : g = g2 := by split_ifs at h <;> omega
  have hb : b = b2 := by split_ifs at h <;> omega
  rw [hr, hg, hb]

theorem bodyCmds_dist (c t : Color) :
    manhattan { r := toward c.r t.r, g := toward c.g t.g, b := toward c.b t.b } t
      + (bodyCmds c t).length = manhattan c t := by
  have h1 := chan_dist RED_UP RED_DN c.r t.r
  have h2 := chan_dist GRN_UP GRN_DN c.g t.g
  have h3 := chan_dist BLU_UP BLU_DN c.b t.b
  simp only [manhattan, bodyCmds, List.length_append]
  omega

theorem stepsFor_nil (t : Color) : StepsFor t t [] := by
  refine ⟨?_, ?_, ?_, ?_, ?_, ?_, ?_, ?_⟩ <;> simp [manhattan_self]

theorem stepsFor_cons (c t : Color) (rest : List Nat)
    (h : StepsFor { r := toward c.r t.r, g := toward c.g t.g, b := toward c.b t.b } t rest) :
    StepsFor c t (bodyCmds c t ++ rest) := by
  obtain ⟨hl, h1, h2, h3, h4, h5, h6, hm⟩ := h
  simp only at h1 h2 h3 h4 h5 h6
  refine ⟨?_, ?_, ?_, ?_, ?_, ?_, ?_, ?_⟩
  · have := bodyCmds_dist c t
    rw [List.length_append, hl]
    omega
  · have a1 := chan_count_up RED_UP RED_DN c.r t.r (by decide)
    have a2 := chan_count_other GRN_UP GRN_DN c.g t.g RED_UP (by decide) (by decide)
    have a3 := chan_count_other BLU_UP BLU_DN c.b t.b RED_UP (by decide) (by decide)
    simp only [bodyCmds, List.count_append]
    omega
  · have a1 := chan_count_dn RED_UP RED_DN c.r t.r (by decide)
    have a2 := chan_count_other GRN_UP GRN_DN c.g t.g RED_DN (by decide) (by decide)
    have a3 := chan_count_other BLU_UP BLU_DN c.b t.b RED_DN (by decide) (by decide)
    simp only [bodyCmds, List.count_append]
    omega
  · have a1 := chan_count_up GRN_UP GRN_DN c.g t.g (by decide)
    have a2 := chan_count_other RED_UP RED_DN c.r t.r GRN_UP (by decide) (by decide)
    have a3 := chan_count_other BLU_UP BLU_DN c.b t.b GRN_UP (by decide) (by decide)
    simp only [bodyCmds, List.count_append]
    omega
  · have a1 := chan_count_dn GRN_UP GRN_DN c.g t.g (by decide)
    have a2 := chan_count_other RED_UP RED_DN c.r t.r GRN_DN (by decide) (by decide)
    have a3 := chan_count_other BLU_UP BLU_DN c.b t.b GRN_DN (by decide) (by decide)
    simp only [bodyCmds, List.count_append]
    omega
  · have a1 := chan_count_up BLU_UP BLU_DN c.b t.b (by decide)
    have a2 := chan_count_other RED_UP RED_DN c.r t.r BLU_UP (by decide) (by decide)
    have a3 := chan_count_other GRN_UP GRN_DN c.g t.g BLU_UP (by decide) (by decide)
    simp only [bodyCmds, List.count_append]
    omega
  · have a1 := chan_count_dn BLU_UP BLU_DN c.b t.b (by decide)
    have a2 := chan_count_other RED_UP RED_DN c.r t.r BLU_DN (by decide) (by decide)
    have a3 := chan_count_other GRN_UP GRN_DN c.g t.g BLU_DN (by decide) (by decide)
    simp only [bodyCmds, List.count_append]
    omega
  · intro op hop
    rcases List.mem_append.mp hop with hb | hr
    · simp only [bodyCmds, List.mem_append] at hb
      rcases hb with (hb | hb) | hb <;>
        rcases chan_mem _ _ _ _ _ hb with e | e <;> rw [e] <;> simp [stepOpcodes]
    · exact hm op hr

/-- The loop of `setColor` from a well-formed colour towards a well-formed one:
with fuel at least the Manhattan distance it exits, in the target colour. -/
theorem setColorLoop_spec (t : Color) (ht : t.wf) :
    ∀ (fuel : Nat) (d : Dev), d.currentColor.wf → manhattan d.currentColor t ≤ fuel →
      ∃ d1 n steps, setColorLoop t fuel d = some (d1, n) ∧ d1.currentColor = t ∧
        d1.calls = d.calls ∧ d1.sent = d.sent ++ steps ∧
        n ≤ manhattan d.currentColor t ∧ StepsFor d.currentColor t steps := by
  intro fuel
  induction fuel with
  | zero =>
    intro d _ hm
    have he : d.currentColor = t := eq_of_manhattan_zero _ _ (by omega)
    have hne : d.currentColor.ne t = false := by
      rw [Bool.eq_false_iff, Ne, Color.ne_iff]
      exact fun h => h he
    refine ⟨d, 0, [], ?_, he, rfl, by simp, Nat.zero_le _, ?_⟩
    · simp [setColorLoop, hne]
    · rw [he]
      exact stepsFor_nil t
  | succ fuel ih =>
    intro d hd hm
    by_cases hne : d.currentColor.ne t = true
    · have hneq : d.currentColor ≠ t := (Color.ne_iff _ _).mp hne
      have hpos := manhattan_pos _ _ hneq
      have hdist := bodyCmds_dist d.currentColor t
      have hwf : (loopBody t d).currentColor.wf := by
        rw [loopBody_eq t d hd ht]
        exact ⟨toward_lt _ _ hd.1 ht.1, toward_lt _ _ hd.2.1 ht.2.1, toward_lt _ _ hd.2.2 ht.2.2⟩
      have hm2 : manhattan (loopBody t d).currentColor t ≤ fuel := by
        rw [loopBody_eq t d hd ht]
        simp only
        omega
      obtain ⟨d1, n, steps, hrun, hcur, hcalls, hsent, hn, hsteps⟩ := ih (loopBody t d) hwf hm2
      rw [loopBody_eq t d hd ht] at hcalls hsent hn hsteps
      simp only at hcalls hsent hn hsteps
      refine ⟨d1, n + 1, bodyCmds d.currentColor t ++ steps, ?_, hcur, hcalls, ?_, ?_, ?_⟩
      · simp [setColorLoop, hne, hrun]
      · rw [hsent, List.append_assoc]
      · omega
      · exact stepsFor_cons _ _ _ hsteps
    · have hne2 : d.currentColor.ne t = false := by simpa using hne
      have he : d.currentColor = t := by
        by_contra h
        exact hne ((Color.ne_iff _ _).mpr h)
      refine ⟨d, 0, [], ?_, he, rfl, by simp, Nat.zero_le _, ?_⟩
      · simp [setColorLoop, hne2]
      · rw [he]
        exact stepsFor_nil t

theorem mulAssign_quarter (c : Color) (hc : c.wf) : c.mulAssign 1 4 = scaled c := by
  obtain ⟨h1, h2, h3⟩ := hc
  simp only [Color.mulAssign, scaled, Nat.mul_one]
  congr 1 <;> omega

theorem scaled_wf (c : Color) (hc : c.wf) : (scaled c).wf := by
  obtain ⟨h1, h2, h3⟩ := hc
  refine ⟨?_, ?_, ?_⟩ <;> simp only [scaled] <;> omega

/-- A call of `setColor` on well-formed colours, with fuel at least the Manhattan
distance to the scaled target. -/
theorem setColorRun_spec (fuel : Nat) (color : Color) (d : Dev) (hc : color.wf)
    (hd : d.currentColor.wf) (hf : manhattan d.currentColor (scaled color) ≤ fuel) :
    ∃ d1 n steps, setColorRun fuel color d = some (d1, n) ∧
      d1.currentColor = scaled color ∧
      d1.calls = d.calls ++ [Call.setColor color] ∧
      d1.sent = d.sent ++ DIY1 :: steps ∧
      n ≤ manhattan d.currentColor (scaled color) ∧
      StepsFor d.currentColor (scaled color) steps := by
  obtain ⟨d1, n, steps, hrun, hcur, hcalls, hsent, hn, hsteps⟩ :=
    setColorLoop_spec (scaled color) (scaled_wf color hc) fuel (setColorEntry color d) hd hf
  refine ⟨d1, n, steps, ?_, hcur, hcalls, ?_, hn, hsteps⟩
  · rw [setColorRun, mulAssign_quarter color hc, hrun]
  · rw [hsent]
    simp [setColorEntry, Dev.send]

theorem manhattan_le (c t : Color) (hc : c.wf) (ht : t.wf) : manhattan c (scaled t) ≤ 765 := by
  obtain ⟨h1, h2, h3⟩ := hc
  obtain ⟨h4, h5, h6⟩ := ht
  simp only [manhattan, absDiff, scaled]
  split_ifs <;> omega

/-! ## DeviceState tracks the commands sent -/

theorem pointsOf_loopSteps (t : Color) (d : Dev) :
    pointsOf t loopSteps d =
      [stepRedUp t d,
       stepRedDn t (stepRedUp t d),
       stepGrnUp t (stepRedDn t (stepRedUp t d)),
       stepGrnDn t (stepGrnUp t (stepRedDn t (stepRedUp t d))),
       stepBluUp t (stepGrnDn t (stepGrnUp t (stepRedDn t (stepRedUp t d)))),
       loopBody t d] := rfl

theorem loopBody_mem_points (t : Color) (d : Dev) : loopBody t d ∈ pointsOf t loopSteps d := by
  rw [pointsOf_loopSteps]
  simp

theorem setColorLoop_mem_points (t : Color) :
    ∀ (fuel : Nat) (d d1 : Dev) (n : Nat), setColorLoop t fuel d = some (d1, n) →
      d1 = d ∨ d1 ∈ loopPoints t fuel d := by
  intro fuel
  induction fuel with
  | zero =>
    intro d d1 n h
    unfold setColorLoop at h
    split at h
    · simp at h
    · simp only [Option.some.injEq, Prod.mk.injEq] at h
      exact Or.inl h.1.symm
  | succ fuel ih =>
    intro d d1 n h
    unfold setColorLoop at h
    split at h
    · next hne =>
      unfold loopPoints
      rw [if_pos hne]
      right
      cases hrec : setColorLoop t fuel (loopBody t d) with
      | none => simp [hrec] at h
      | some res =>
        obtain ⟨d2, m⟩ := res
        simp only [hrec, Option.some.injEq, Prod.mk.injEq] at h
        rcases ih (loopBody t d) d2 m hrec with h1 | h1
        · rw [← h.1, h1]
          exact List.mem_append_left _ (loopBody_mem_points t d)
        · rw [← h.1]
          exact List.mem_append_right _ h1
    · simp only [Option.some.injEq, Prod.mk.injEq] at h
      exact Or.inl h.1.symm

theorem setColor_mem_points (fuel : Nat) (target : Color) (d d1 : Dev)
    (h : setColor fuel target d = some d1) : d1 ∈ setColorPoints fuel target d := by
  unfold setColor setColorRun at h
  cases hrun : setColorLoop (target.mulAssign 1 4) fuel (setColorEntry target d) with
  | none => simp [hrun] at h
  | some res =>
    obtain ⟨d2, n⟩ := res
    simp only [hrun, Option.map_some', Option.some.injEq] at h
    unfold setColorPoints
    rcases setColorLoop_mem_points _ fuel _ d2 n hrun with h1 | h1
    · rw [← h, h1]
      simp
    · rw [← h]
      exact List.mem_cons_of_mem _ (List.mem_cons_of_mem _ h1)

theorem resetColorLoop_eq (n : Nat) (d : Dev) :
    resetColorLoop n d =
      { d with sent := d.sent ++ (List.replicate n [RED_DN, GRN_DN, BLU_DN]).flatten } := by
  induction n with
  | zero => simp [resetColorLoop]
  | succ n ih =>
    simp [resetColorLoop, ih, Dev.send, List.replicate_succ', List.flatten_append]

theorem resetColor_eq (d : Dev) :
    resetColor d =
      { currentColor := Color.mk 0 0 0
        sent := d.sent ++ (List.replicate 80 [RED_DN, GRN_DN, BLU_DN]).flatten
        calls := d.calls ++ [Call.resetColor] } := by
  simp [resetColor, resetColorLoop_eq]

theorem count_reset (x : Nat) (n : Nat) :
    ((List.replicate n [RED_DN, GRN_DN, BLU_DN]).flatten).count x
      = n * [RED_DN, GRN_DN, BLU_DN].count x := by
  induction n with
  | zero => simp
  | succ n ih =>
    rw [List.replicate_succ, List.flatten_cons, List.count_append, ih]
    ring

theorem length_reset (n : Nat) :
    ((List.replicate n [RED_DN, GRN_DN, BLU_DN]).flatten).length = n * 3 := by
  induction n with
  | zero => simp
  | succ n ih =>
    rw [List.replicate_succ, List.flatten_cons, List.length_append, ih]
    simp only [List.length_cons, List.length_nil]
    omega

/-! ## The scheduler tick -/

theorem tick_neg (getBB : ℚ → Color) (fuel : Nat) (secs : Int) (s : Sched) (h : secs < 0) :
    tick getBB fuel secs s = some s := by
  simp [tick, h]

theorem tick_off (getBB : ℚ → Color) (fuel : Nat) (s : Sched) :
    tick getBB fuel OFF s = some s := by
  simp [tick, OFF, DEMO]

theorem tick_demo (getBB : ℚ → Color) (fuel : Nat) (s : Sched) :
    tick getBB fuel DEMO s = (demo getBB fuel s.dev).map (fun d => { s with dev := d }) := by
  cases h : demo getBB fuel s.dev <;>
    simp [tick, OFF, DEMO, SUNRISE_LENGTH, HOLD_TIME, h]

theorem tick_hold (getBB : ℚ → Color) (fuel : Nat) (secs : Int) (s : Sched)
    (h1 : 86355 < secs) (h2 : secs ≠ DEMO) :
    tick getBB fuel secs s = some s := by
  have a1 : ¬ secs < 0 := by omega
  have a2 : ¬ secs ≤ 3660 := by omega
  have a3 : ¬ secs ≤ 3600 := by omega
  by_cases h3 : secs = OFF
  · simp [tick, h3, OFF, DEMO]
  · simp [tick, SUNRISE_LENGTH, HOLD_TIME, a1, a2, a3, h1, h2, h3]

theorem tick_mid (getBB : ℚ → Color) (fuel : Nat) (secs : Int) (s : Sched)
    (h1 : 3660 < secs) (h2 : secs ≤ 86355) :
    tick getBB fuel secs s =
      some (if s.inProgress then { dev := resetColor s.dev, inProgress := false } else s) := by
  have a1 : ¬ secs < 0 := by omega
  have a2 : ¬ secs ≤ 3660 := by omega
  have a3 : ¬ secs ≤ 3600 := by omega
  have a4 : ¬ (86355 : Int) < secs := by omega
  have a5 : secs ≤ 86355 := by omega
  have a6 : (3660 : Int) < secs := by omega
  have a7 : secs ≠ DEMO := by unfold DEMO; omega
  have a8 : secs ≠ OFF := by unfold OFF; omega
  cases hp : s.inProgress <;>
    simp [tick, SUNRISE_LENGTH, HOLD_TIME, a1, a2, a3, a4, a5, a6, a7, a8, hp]

theorem tick_pre (getBB : ℚ → Color) (fuel : Nat) (secs : Int) (s : Sched)
    (h1 : 3600 < secs) (h2 : secs ≤ 3660) :
    tick getBB fuel secs s =
      some (if s.inProgress then s else { dev := resetColor s.dev, inProgress := true }) := by
  have a1 : ¬ secs < 0 := by omega
  have a2 : secs ≤ 3660 := by omega
  have a3 : ¬ secs ≤ 3600 := by omega
  have a4 : ¬ (86355 : Int) < secs := by omega
  have a5 : secs ≤ 86355 := by omega
  have a6 : ¬ (3660 : Int) < secs := by omega
  have a7 : secs ≠ DEMO := by unfold DEMO; omega
  have a8 : secs ≠ OFF := by unfold OFF; omega
  cases hp : s.inProgress <;>
    simp [tick, SUNRISE_LENGTH, HOLD_TIME, a1, a2, a3, a4, a5, a6, a7, a8, hp]

theorem tick_rise (getBB : ℚ → Color) (fuel : Nat) (secs : Int) (s : Sched)
    (h1 : 0 ≤ secs) (h2 : secs ≤ 3600) :
    tick getBB fuel secs s =
      (setColor fuel (getBB (sunriseTemp secs))
        (if s.inProgress then s.dev else resetColor s.dev)).map
        (fun d => { dev := d, inProgress := true }) := by
  have a1 : ¬ secs < 0 := by omega
  have a2 : secs ≤ 3660 := by omega
  have a4 : ¬ (86355 : Int) < secs := by omega
  have a5 : secs ≤ 86355 := by omega
  have a6 : ¬ (3660 : Int) < secs := by omega
  have a7 : secs ≠ DEMO := by unfold DEMO; omega
  have a8 : secs ≠ OFF := by unfold OFF; omega
  cases hp : s.inProgress
  · cases hs : setColor fuel (getBB (sunriseTemp secs)) (resetColor s.dev) <;>
      simp [tick, SUNRISE_LENGTH, HOLD_TIME, a1, a2, h2, a4, a5, a6, a7, a8, hp, hs]
  · cases hs : setColor fuel (getBB (sunriseTemp secs)) s.dev <;>
      simp [tick, SUNRISE_LENGTH, HOLD_TIME, a1, a2, h2, a4, a5, a6, a7, a8, hp, hs]

theorem setColor_total (fuel : Nat) (hf : 765 ≤ fuel) (color : Color) (d : Dev)
    (hc : color.wf) (hd : d.currentColor.wf) :
    ∃ d1 steps, setColor fuel color d = some d1 ∧ d1.currentColor = scaled color ∧
      d1.calls = d.calls ++ [Call.setColor color] ∧ d1.sent = d.sent ++ DIY1 :: steps := by
  obtain ⟨d1, n, steps, hrun, hcur, hcalls, hsent, _, _⟩ :=
    setColorRun_spec fuel color d hc hd (le_trans (manhattan_le _ _ hd hc) hf)
  exact ⟨d1, steps, by simp [setColor, hrun], hcur, hcalls, hsent⟩

theorem demoTemp_eq (i : Nat) : demoTemp i = ((i : ℚ) / 60) ^ 2 * (i : ℚ) * 80 + 663 := by
  unfold demoTemp
  ring

theorem runTicks_append (getBB : ℚ → Color) (fuel : Nat) (xs ys : List Int) :
    ∀ s s1, runTicks getBB fuel xs s = some s1 →
      runTicks getBB fuel (xs ++ ys) s = runTicks getBB fuel ys s1 := by
  induction xs with
  | nil =>
    intro s s1 h
    simp only [runTicks, Option.some.injEq] at h
    rw [List.nil_append, h]
  | cons x xs ih =>
    intro s s1 h
    simp only [runTicks, List.cons_append] at h ⊢
    cases ht : tick getBB fuel x s with
    | none => simp [ht] at h
    | some s2 =>
      simp only [ht] at h ⊢
      exact ih s2 s1 h

theorem idle_run (getBB : ℚ → Color) (fuel : Nat) (s : Sched) (hp : s.inProgress = false) :
    ∀ l : List Int, (∀ y ∈ l, 3660 < y ∧ y ≤ 86355) → runTicks getBB fuel l s = some s := by
  intro l
  induction l with
  | nil => intro _; rfl
  | cons y l ih =>
    intro h
    have hy := h y (List.mem_cons_self _ _)
    have ht : tick getBB fuel y s = some s := by
      rw [tick_mid getBB fuel y s hy.1 hy.2, hp]
      rfl
    simp only [runTicks, ht]
    exact ih (fun z hz => h z (List.mem_cons_of_mem _ hz))

theorem resetCalls_snoc_reset (cs : List Call) :
    resetCalls (cs ++ [Call.resetColor]) = resetCalls cs + 1 := by
  simp [resetCalls, List.count_append]

theorem resetCalls_snoc_set (cs : List Call) (c : Color) :
    resetCalls (cs ++ [Call.setColor c]) = resetCalls cs := by
  simp [resetCalls, List.count_append, List.count_cons]

theorem trigger_tick (getBB : ℚ → Color) (hbb : ∀ t, (getBB t).wf) (fuel : Nat)
    (hf : 765 ≤ fuel) (s : Sched) (hp : s.inProgress = false) (x : Int) (h1 : 0 ≤ x)
    (h2 : x ≤ 3660) :
    ∃ s1, tick getBB fuel x s = some s1 ∧ s1.inProgress = true ∧
      resetCalls s1.dev.calls = resetCalls s.dev.calls + 1 ∧ s1.dev.currentColor.wf := by
  by_cases h3 : x ≤ 3600
  · have hw : (resetColor s.dev).currentColor.wf := by
      rw [resetColor_eq]
      exact (by decide : (Color.mk 0 0 0).wf)
    obtain ⟨d1, steps, hset, hcur, hcalls, _⟩ :=
      setColor_total fuel hf (getBB (sunriseTemp x)) (resetColor s.dev) (hbb _) hw
    refine ⟨{ dev := d1, inProgress := true }, ?_, rfl, ?_, ?_⟩
    · rw [tick_rise getBB fuel x s h1 h3, hp]
      simp [hset]
    · simp only [hcalls, resetColor_eq, resetCalls_snoc_set, resetCalls_snoc_reset]
    · simp only [hcur]
      exact scaled_wf _ (hbb _)
  · refine ⟨{ dev := resetColor s.dev, inProgress := true }, ?_, rfl, ?_, ?_⟩
    · rw [tick_pre getBB fuel x s (by omega) h2, hp]
      rfl
    · simp only [resetColor_eq, resetCalls_snoc_reset]
    · simp only [resetColor_eq]
      exact (by decide : (Color.mk 0 0 0).wf)

theorem rising_run (getBB : ℚ → Color) (hbb : ∀ t, (getBB t).wf) (fuel : Nat)
    (hf : 765 ≤ fuel) :
    ∀ (l : List Int) (s : Sched), s.inProgress = true → s.dev.currentColor.wf →
      (∀ y ∈ l, 0 ≤ y ∧ y ≤ 3660) →
      ∃ s1, runTicks getBB fuel l s = some s1 ∧ s1.inProgress = true ∧
        resetCalls s1.dev.calls = resetCalls s.dev.calls ∧ s1.dev.currentColor.wf := by
  intro l
  induction l with
  | nil =>
    intro s hp hw _
    exact ⟨s, rfl, hp, rfl, hw⟩
  | cons y l ih =>
    intro s hp hw h
    have hy := h y (List.mem_cons_self _ _)
    have hstep : ∃ s2, tick getBB fuel y s = some s2 ∧ s2.inProgress = true ∧
        resetCalls s2.dev.calls = resetCalls s.dev.calls ∧ s2.dev.currentColor.wf := by
      by_cases h3 : y ≤ 3600
      · obtain ⟨d1, steps, hset, hcur, hcalls, _⟩ :=
          setColor_total fuel hf (getBB (sunriseTemp y)) s.dev (hbb _) hw
        refine ⟨{ dev := d1, inProgress := true }, ?_, rfl, ?_, ?_⟩
        · rw [tick_rise getBB fuel y s hy.1 h3, hp]
          simp [hset]
        · simp only [hcalls, resetCalls_snoc_set]
        · simp only [hcur]
          exact scaled_wf _ (hbb _)
      · refine ⟨s, ?_, hp, rfl, hw⟩
        rw [tick_pre getBB fuel y s (by omega) hy.2, hp]
        rfl
    obtain ⟨s2, ht, hp2, hc2, hw2⟩ := hstep
    obtain ⟨s3, hrun, hp3, hc3, hw3⟩ :=
      ih s2 hp2 hw2 (fun z hz => h z (List.mem_cons_of_mem _ hz))
    refine ⟨s3, ?_, hp3, by rw [hc3, hc2], hw3⟩
    simp only [runTicks, ht]
    exact hrun

theorem split_first (l : List Int) (h : ∃ y ∈ l, y ≤ 3660) :
    ∃ pre x post, l = pre ++ x :: post ∧ (∀ y ∈ pre, 3660 < y) ∧ x ≤ 3660 := by
  induction l with
  | nil =>
    obtain ⟨y, hy, _⟩ := h
    simp at hy
  | cons a l ih =>
    by_cases ha : a ≤ 3660
    · exact ⟨[], a, l, rfl, by simp, ha⟩
    · obtain ⟨y, hy, hy2⟩ := h
      have hy3 : y ∈ l := by
        rcases List.mem_cons.mp hy with e | e
        · rw [e] at hy2
          exact absurd hy2 ha
        · exact e
      obtain ⟨pre, x, post, hl, hpre, hx⟩ := ih ⟨y, hy3, hy2⟩
      refine ⟨a :: pre, x, post, by rw [hl]; rfl, ?_, hx⟩
      intro z hz
      rcases List.mem_cons.mp hz with e | e
      · rw [e]
        omega
      · exact hpre z e

/-! ## Every program point of a setColor call -/

/-- C1: for every 16-bit opcode `c`, `sendCommand c` returns, and its pin/delay
trace is exactly: LOW held 9000 us, HIGH held 4500 us, then 32 bit-frames (each
LOW for 500 us, then HIGH for the bit length), whose bit lengths are 8 times 500,
8 times 1500 and then 16 lengths that encode the opcode, then the footer LOW for
500 us and HIGH, then a delay of 100000 us. Every bit length is 500 or 1500, and
the `bitlen` of `sendBit` is assigned one of the two for either value of the bit. -/
theorem C1_sendCommand_trace (c : Nat) (_hc : c < 65536) :
    ∃ tr lens, sendCommand c = some tr ∧
      lens = List.replicate 8 500 ++ List.replicate 8 1500 ++
        (List.range 16).map (fun k => if c.testBit (15 - k) then 1500 else 500) ∧
      pinDelayTrace tr =
        [Ev.digitalWrite CMD_PIN LOW, Ev.delayMicroseconds 9000,
         Ev.digitalWrite CMD_PIN HIGH, Ev.delayMicroseconds 4500]
        ++ frames lens ++
        [Ev.digitalWrite CMD_PIN LOW, Ev.delayMicroseconds 500,
         Ev.digitalWrite CMD_PIN HIGH, Ev.delayMicroseconds 100000] ∧
      lens.length = 32 ∧
      (∀ len ∈ lens, len = 500 ∨ len = 1500) ∧
      (∀ len, bitFrame len =
        [Ev.digitalWrite CMD_PIN LOW, Ev.delayMicroseconds 500,
         Ev.digitalWrite CMD_PIN HIGH, Ev.delayMicroseconds len]) ∧
      (∀ bit, sendBit.bitlen bit = some 500 ∨ sendBit.bitlen bit = some 1500) := by
  refine ⟨_, bitLens c, sendCommand_eq c, rfl, ?_, ?_, ?_, fun _ => rfl, ?_⟩
  · unfold pinDelayTrace
    rw [List.filter_append, List.filter_append]
    have h := pinDelayTrace_frames (bitLens c)
    unfold pinDelayTrace at h
    rw [h]
    rfl
  · simp [bitLens]
  · intro len hlen
    simp only [bitLens, List.mem_append, List.mem_replicate, List.mem_map] at hlen
    rcases hlen with (⟨_, h⟩ | ⟨_, h⟩) | ⟨k, _, h⟩
    · exact Or.inl h
    · exact Or.inr h
    · rw [← h]
      unfold opcodeLen
      split
      · exact Or.inr rfl
      · exact Or.inl rfl
  · intro bit
    cases bit
    · exact Or.inl rfl
    · exact Or.inr rfl

/-- Instance of C1 at the opcode `RED_UP`. -/
theorem C1_sendCommand_trace_witness :
    0b0010100011010111 < 65536 ∧
    ∃ tr lens, sendCommand 0b0010100011010111 = some tr ∧
      lens = List.replicate 8 500 ++ List.replicate 8 1500 ++
        (List.range 16).map (fun k => if (0b0010100011010111 : Nat).testBit (15 - k)
          then 1500 else 500) ∧
      pinDelayTrace tr =
        [Ev.digitalWrite CMD_PIN LOW, Ev.delayMicroseconds 9000,
         Ev.digitalWrite CMD_PIN HIGH, Ev.delayMicroseconds 4500]
        ++ frames lens ++
        [Ev.digitalWrite CMD_PIN LOW, Ev.delayMicroseconds 500,
         Ev.digitalWrite CMD_PIN HIGH, Ev.delayMicroseconds 100000] ∧
      lens.length = 32 ∧
      (∀ len ∈ lens, len = 500 ∨ len = 1500) ∧
      (∀ len, bitFrame len =
        [Ev.digitalWrite CMD_PIN LOW, Ev.delayMicroseconds 500,
         Ev.digitalWrite CMD_PIN HIGH, Ev.delayMicroseconds len]) ∧
      (∀ bit, sendBit.bitlen bit = some 500 ∨ sendBit.bitlen bit = some 1500) :=
  ⟨by decide, C1_sendCommand_trace 0b0010100011010111 (by decide)⟩

/-- C2: `sendCommand` emits the opcode most significant bit first. For every 16-bit
opcode `c` the call returns a trace in which, for every `k` in 0..15, the `k`-th of
the 16 opcode bit-frames is held high for 1500 us if bit `15 - k` of `c` is set and
for 500 us otherwise; reading these 16 durations back as a big-endian binary number
gives `c`; and no other 16-bit opcode has the same trace. -/
theorem C2_sendCommand_msb_first (c : Nat) (hc : c < 65536) :
    ∃ tr, sendCommand c = some tr ∧
      (opcodeHighs tr).length = 16 ∧
      (∀ k, k < 16 →
        (opcodeHighs tr)[k]? = some (if c.testBit (15 - k) then 1500 else 500)) ∧
      readBack (opcodeHighs tr) = c ∧
      (∀ c2, c2 < 65536 → c2 ≠ c → sendCommand c2 ≠ sendCommand c) := by
  obtain ⟨tr, htr⟩ : ∃ tr, sendCommand c = some tr := ⟨_, sendCommand_eq c⟩
  have hop := opcodeHighs_sendCommand c tr htr
  refine ⟨tr, htr, ?_, ?_, ?_, ?_⟩
  · rw [hop]
    simp
  · intro k hk
    rw [hop, List.getElem?_map, List.getElem?_range hk]
    rfl
  · rw [hop]
    exact readBack_opcode c hc
  · intro c2 hc2 hne heq
    apply hne
    have hop2 := opcodeHighs_sendCommand c2 tr (heq.trans htr)
    have h1 := readBack_opcode c2 hc2
    rw [← hop2, hop, readBack_opcode c hc] at h1
    exact h1.symm

/-- Instance of C2 at the opcode `GRN_UP`. -/
theorem C2_sendCommand_msb_first_witness :
    0b1010100001010111 < 65536 ∧
    ∃ tr, sendCommand 0b1010100001010111 = some tr ∧
      (opcodeHighs tr).length = 16 ∧
      (∀ k, k < 16 →
        (opcodeHighs tr)[k]? =
          some (if (0b1010100001010111 : Nat).testBit (15 - k) then 1500 else 500)) ∧
      readBack (opcodeHighs tr) = 0b1010100001010111 ∧
      (∀ c2, c2 < 65536 → c2 ≠ 0b1010100001010111 →
        sendCommand c2 ≠ sendCommand 0b1010100001010111) :=
  ⟨by decide, C2_sendCommand_msb_first 0b1010100001010111 (by decide)⟩

/-- C3: for every prior DeviceState and every target colour with channels in
0..255, `setColor` terminates (any fuel of at least the Manhattan distance between
the prior DeviceState and the scaled target lets the loop exit), on return the
DeviceState is the scaled target `(r/4, g/4, b/4)` (rounded down), and the loop has
made at most `|dr| + |dg| + |db|` iterations. -/
theorem C3_setColor_converges (d : Dev) (target : Color) (fuel : Nat)
    (hd : d.currentColor.wf) (ht : target.wf)
    (hf : absDiff d.currentColor.r (target.r / 4) + absDiff d.currentColor.g (target.g / 4)
      + absDiff d.currentColor.b (target.b / 4) ≤ fuel) :
    ∃ d1 n, setColorRun fuel target d = some (d1, n) ∧
      setColor fuel target d = some d1 ∧
      d1.currentColor = { r := target.r / 4, g := target.g / 4, b := target.b / 4 } ∧
      n ≤ absDiff d.currentColor.r (target.r / 4) + absDiff d.currentColor.g (target.g / 4)
        + absDiff d.currentColor.b (target.b / 4) := by
  obtain ⟨d1, n, steps, hrun, hcur, _, _, hn, _⟩ := setColorRun_spec fuel target d ht hd hf
  exact ⟨d1, n, hrun, by simp [setColor, hrun], hcur, hn⟩

/-- Instance of C3: from (3,40,0) to the target (255,130,7). -/
theorem C3_setColor_converges_witness :
    ∃ d1 n, setColorRun 100 (Color.mk 255 130 7) (Dev.mk (Color.mk 3 40 0) [] []) = some (d1, n) ∧
      setColor 100 (Color.mk 255 130 7) (Dev.mk (Color.mk 3 40 0) [] []) = some d1 ∧
      d1.currentColor = { r := 255 / 4, g := 130 / 4, b := 7 / 4 } ∧
      n ≤ absDiff 3 (255 / 4) + absDiff 40 (130 / 4) + absDiff 0 (7 / 4) :=
  C3_setColor_converges (Dev.mk (Color.mk 3 40 0) [] []) (Color.mk 255 130 7) 100
    (by decide) (by decide) (by decide)

/-- C4: for every prior DeviceState and every target, the step commands `setColor`
sends after the leading DIY1 are exactly as many as the Manhattan distance between
the prior DeviceState and the scaled target; per channel they are only increments
(as many as the scaled target is above the prior value) or only decrements (as many
as it is below), and nothing but step opcodes. -/
theorem C4_setColor_step_count (d : Dev) (target : Color) (fuel : Nat)
    (hd : d.currentColor.wf) (ht : target.wf)
    (hf : absDiff d.currentColor.r (target.r / 4) + absDiff d.currentColor.g (target.g / 4)
      + absDiff d.currentColor.b (target.b / 4) ≤ fuel) :
    ∃ d1 steps, setColor fuel target d = some d1 ∧
      d1.sent = d.sent ++ DIY1 :: steps ∧
      steps.length = absDiff d.currentColor.r (target.r / 4)
        + absDiff d.currentColor.g (target.g / 4) + absDiff d.currentColor.b (target.b / 4) ∧
      steps.count RED_UP = target.r / 4 - d.currentColor.r ∧
      steps.count RED_DN = d.currentColor.r - target.r / 4 ∧
      steps.count GRN_UP = target.g / 4 - d.currentColor.g ∧
      steps.count GRN_DN = d.currentColor.g - target.g / 4 ∧
      steps.count BLU_UP = target.b / 4 - d.currentColor.b ∧
      steps.count BLU_DN = d.currentColor.b - target.b / 4 ∧
      (∀ op ∈ steps, op ∈ [RED_UP, RED_DN, GRN_UP, GRN_DN, BLU_UP, BLU_DN]) ∧
      (d.currentColor.r < target.r / 4 → RED_DN ∉ steps) ∧
      (d.currentColor.r > target.r / 4 → RED_UP ∉ steps) ∧
      (d.currentColor.g < target.g / 4 → GRN_DN ∉ steps) ∧
      (d.currentColor.g > target.g / 4 → GRN_UP ∉ steps) ∧
      (d.currentColor.b < target.b / 4 → BLU_DN ∉ steps) ∧
      (d.currentColor.b > target.b / 4 → BLU_UP ∉ steps) := by
  obtain ⟨d1, n, steps, hrun, _, _, hsent, _, hl, h1, h2, h3, h4, h5, h6, hm⟩ :=
    setColorRun_spec fuel target d ht hd hf
  simp only [scaled] at h1 h2 h3 h4 h5 h6
  refine ⟨d1, steps, by simp [setColor, hrun], hsent, hl, h1, h2, h3, h4, h5, h6, hm,
    ?_, ?_, ?_, ?_, ?_, ?_⟩ <;> intro hlt <;> apply List.count_eq_zero.mp <;> omega

/-- Instance of C4: from (3,40,0) to the target (255,130,7). -/
theorem C4_setColor_step_count_witness :
    ∃ d1 steps, setColor 100 (Color.mk 255 130 7) (Dev.mk (Color.mk 3 40 0) [] []) = some d1 ∧
      d1.sent = [] ++ DIY1 :: steps ∧
      steps.length = absDiff 3 (255 / 4) + absDiff 40 (130 / 4) + absDiff 0 (7 / 4) ∧
      steps.count RED_UP = 255 / 4 - 3 ∧
      steps.count RED_DN = 3 - 255 / 4 ∧
      steps.count GRN_UP = 130 / 4 - 40 ∧
      steps.count GRN_DN = 40 - 130 / 4 ∧
      steps.count BLU_UP = 7 / 4 - 0 ∧
      steps.count BLU_DN = 0 - 7 / 4 ∧
      (∀ op ∈ steps, op ∈ [RED_UP, RED_DN, GRN_UP, GRN_DN, BLU_UP, BLU_DN]) ∧
      (3 < 255 / 4 → RED_DN ∉ steps) ∧
      (3 > 255 / 4 → RED_UP ∉ steps) ∧
      (40 < 130 / 4 → GRN_DN ∉ steps) ∧
      (40 > 130 / 4 → GRN_UP ∉ steps) ∧
      (0 < 7 / 4 → BLU_DN ∉ steps) ∧
      (0 > 7 / 4 → BLU_UP ∉ steps) :=
  C4_setColor_step_count (Dev.mk (Color.mk 3 40 0) [] []) (Color.mk 255 130 7) 100
    (by decide) (by decide) (by decide)

/-- C5: `resetColor` does not depend on the prior DeviceState: for every prior state
the commands it sends are the triple RED_DN, GRN_DN, BLU_DN repeated 80 times, which
are 240 commands, 80 decrements per channel and no other opcode, and on return the
DeviceState is (0,0,0). -/
theorem C5_resetColor (d : Dev) :
    (resetColor d).sent = d.sent ++ (List.replicate 80 [RED_DN, GRN_DN, BLU_DN]).flatten ∧
    ((List.replicate 80 [RED_DN, GRN_DN, BLU_DN]).flatten).length = 240 ∧
    ((List.replicate 80 [RED_DN, GRN_DN, BLU_DN]).flatten).count RED_DN = 80 ∧
    ((List.replicate 80 [RED_DN, GRN_DN, BLU_DN]).flatten).count GRN_DN = 80 ∧
    ((List.replicate 80 [RED_DN, GRN_DN, BLU_DN]).flatten).count BLU_DN = 80 ∧
    (∀ op ∈ (List.replicate 80 [RED_DN, GRN_DN, BLU_DN]).flatten,
      op = RED_DN ∨ op = GRN_DN ∨ op = BLU_DN) ∧
    (resetColor d).currentColor = Color.mk 0 0 0 ∧
    (resetColor d).calls = d.calls ++ [Call.resetColor] := by
  refine ⟨?_, ?_, ?_, ?_, ?_, ?_, ?_, ?_⟩
  · rw [resetColor_eq]
  · rw [length_reset]
  · rw [count_reset]
    rfl
  · rw [count_reset]
    rfl
  · rw [count_reset]
    rfl
  · intro op hop
    simp only [List.mem_flatten, List.mem_replicate] at hop
    obtain ⟨l, ⟨_, hl⟩, hmem⟩ := hop
    rw [hl] at hmem
    simpa using hmem
  · rw [resetColor_eq]
  · rw [resetColor_eq]

/-- C6: every `setColor` call sends DIY1 exactly once, as its very first command
and before any step command, for every prior DeviceState and every target; when the
DeviceState already equals the scaled target the call sends exactly [DIY1]. -/
theorem C6_setColor_diy1_first (d : Dev) (target : Color) (fuel : Nat)
    (hd : d.currentColor.wf) (ht : target.wf)
    (hf : absDiff d.currentColor.r (target.r / 4) + absDiff d.currentColor.g (target.g / 4)
      + absDiff d.currentColor.b (target.b / 4) ≤ fuel) :
    ∃ d1 steps, setColor fuel target d = some d1 ∧
      d1.sent = d.sent ++ DIY1 :: steps ∧
      (∀ op ∈ steps, op ∈ [RED_UP, RED_DN, GRN_UP, GRN_DN, BLU_UP, BLU_DN]) ∧
      DIY1 ∉ steps ∧
      (DIY1 :: steps).count DIY1 = 1 ∧
      (d.currentColor = { r := target.r / 4, g := target.g / 4, b := target.b / 4 } →
        d1.sent = d.sent ++ [DIY1]) := by
  obtain ⟨d1, n, steps, hrun, _, _, hsent, _, hl, _, _, _, _, _, _, hm⟩ :=
    setColorRun_spec fuel target d ht hd hf
  have hnot : DIY1 ∉ steps := by
    intro h
    have := hm _ h
    revert this
    decide
  refine ⟨d1, steps, by simp [setColor, hrun], hsent, hm, hnot, ?_, ?_⟩
  · rw [List.count_cons_self, List.count_eq_zero.mpr hnot]
  · intro he
    have h0 : steps.length = 0 := by
      rw [hl]
      have : d.currentColor = scaled target := he
      rw [this]
      exact manhattan_self _
    rw [hsent, List.length_eq_zero.mp h0]

/-- Instance of C6: a call with the DeviceState already at the scaled target. -/
theorem C6_setColor_diy1_first_witness :
    ∃ d1 steps, setColor 0 (Color.mk 255 130 7) (Dev.mk (Color.mk 63 32 1) [] []) = some d1 ∧
      d1.sent = [] ++ DIY1 :: steps ∧
      (∀ op ∈ steps, op ∈ [RED_UP, RED_DN, GRN_UP, GRN_DN, BLU_UP, BLU_DN]) ∧
      DIY1 ∉ steps ∧
      (DIY1 :: steps).count DIY1 = 1 ∧
      ((Color.mk 63 32 1) = { r := 255 / 4, g := 130 / 4, b := 7 / 4 } →
        d1.sent = [] ++ [DIY1]) :=
  C6_setColor_diy1_first (Dev.mk (Color.mk 63 32 1) [] []) (Color.mk 255 130 7) 0
    (by decide) (by decide) (by decide)

/-- C8: starting with `inProgress` false, for every non-increasing sequence of poll
ticks whose `secsRemaining` values start at `SUNRISE_LENGTH + 61` (3661) and end at 0,
every tick returns, and there is a first tick whose value is at most
`SUNRISE_LENGTH + 60` (3660): up to that tick `inProgress` is false and no `resetColor`
call has been made; from that tick on `inProgress` is true and exactly one `resetColor`
call has been made. So `inProgress` changes from false to true exactly once, never
changes back, and exactly one `resetColor` call is made over the whole sequence, both
at that tick. -/
theorem C8_idle_to_rising_once (getBB : ℚ → Color) (fuel : Nat) (seq : List Int) (s0 : Sched)
    (hbb : ∀ t, (getBB t).wf) (hf : 765 ≤ fuel)
    (h0 : s0.inProgress = false)
    (hhead : seq.head? = some (SUNRISE_LENGTH + 61))
    (hlast : seq.getLast? = some 0)
    (hmono : seq.Pairwise (fun a b => b ≤ a)) :
    ∃ pre x post, seq = pre ++ x :: post ∧
      (∀ y ∈ pre, SUNRISE_LENGTH + 60 < y) ∧ x ≤ SUNRISE_LENGTH + 60 ∧
      (∀ k, k ≤ pre.length →
        ∃ s, runTicks getBB fuel (seq.take k) s0 = some s ∧ s.inProgress = false ∧
          resetCalls s.dev.calls = resetCalls s0.dev.calls) ∧
      (∀ k, pre.length < k → k ≤ seq.length →
        ∃ s, runTicks getBB fuel (seq.take k) s0 = some s ∧ s.inProgress = true ∧
          resetCalls s.dev.calls = resetCalls s0.dev.calls + 1) := by
  obtain ⟨ys, hys⟩ := List.getLast?_eq_some_iff.mp hlast
  have hge : ∀ z ∈ seq, 0 ≤ z := by
    intro z hz
    rw [hys] at hz hmono
    rcases List.mem_append.mp hz with h | h
    · exact (List.pairwise_append.mp hmono).2.2 z h 0 (List.mem_singleton_self 0)
    · rw [List.mem_singleton.mp h]
  have hle : ∀ z ∈ seq, z ≤ 3661 := by
    intro z hz
    cases seq with
    | nil => simp at hz
    | cons a tl =>
      simp only [List.head?_cons, Option.some.injEq, SUNRISE_LENGTH] at hhead
      rcases List.mem_cons.mp hz with e | e
      · rw [e]
        omega
      · have := (List.pairwise_cons.mp hmono).1 z e
        omega
  have hzero : (0 : Int) ∈ seq := by
    rw [hys]
    simp
  obtain ⟨pre, x, post, hseq, hpre, hx⟩ := split_first seq ⟨0, hzero, by omega⟩
  have hpost : ∀ y ∈ post, 0 ≤ y ∧ y ≤ 3660 := by
    intro y hy
    have hmem : y ∈ seq := by
      rw [hseq]
      simp [hy]
    refine ⟨hge y hmem, ?_⟩
    rw [hseq] at hmono
    have := (List.pairwise_cons.mp (List.pairwise_append.mp hmono).2.1).1 y hy
    omega
  have hx0 : 0 ≤ x := hge x (by rw [hseq]; simp)
  have hpre2 : ∀ y ∈ pre, 3660 < y ∧ y ≤ 86355 := by
    intro y hy
    have := hle y (by rw [hseq]; simp [hy])
    exact ⟨hpre y hy, by omega⟩
  refine ⟨pre, x, post, hseq, ?_, ?_, ?_, ?_⟩
  · intro y hy
    have := hpre y hy
    simp only [SUNRISE_LENGTH]
    omega
  · simp only [SUNRISE_LENGTH]
    omega
  · intro k hk
    refine ⟨s0, ?_, h0, rfl⟩
    rw [hseq, List.take_append_of_le_length hk]
    exact idle_run getBB fuel s0 h0 _ (fun y hy => hpre2 y (List.mem_of_mem_take hy))
  · intro k hk1 _
    obtain ⟨j, hj⟩ : ∃ j, k = pre.length + (j + 1) := ⟨k - pre.length - 1, by omega⟩
    obtain ⟨s1, ht, hp1, hc1, hw1⟩ := trigger_tick getBB hbb fuel hf s0 h0 x hx0 hx
    obtain ⟨s2, hrun, hp2, hc2, _⟩ := rising_run getBB hbb fuel hf (post.take j) s1 hp1 hw1
      (fun y hy => hpost y (List.mem_of_mem_take hy))
    refine ⟨s2, ?_, hp2, by rw [hc2, hc1]⟩
    rw [hseq, hj, List.take_append, List.take_succ_cons,
      runTicks_append getBB fuel pre _ s0 s0 (idle_run getBB fuel s0 h0 pre hpre2)]
    simp only [runTicks, ht]
    exact hrun

/-- Instance of C8: the ticks 3661, 3661, 3660, 3600, 1800, 5, 0 from the initial
state, with a constant `getBB`. -/
theorem C8_idle_to_rising_once_witness :
    ∃ pre x post, [3661, 3661, 3660, 3600, 1800, 5, 0] = pre ++ x :: post ∧
      (∀ y ∈ pre, SUNRISE_LENGTH + 60 < y) ∧ x ≤ SUNRISE_LENGTH + 60 ∧
      (∀ k, k ≤ pre.length →
        ∃ s, runTicks (fun _ => Color.mk 255 130 7) 765
            (([3661, 3661, 3660, 3600, 1800, 5, 0] : List Int).take k)
            (Sched.mk (Dev.mk (Color.mk 0 0 0) [] []) false) = some s ∧
          s.inProgress = false ∧
          resetCalls s.dev.calls = resetCalls [] ) ∧
      (∀ k, pre.length < k → k ≤ ([3661, 3661, 3660, 3600, 1800, 5, 0] : List Int).length →
        ∃ s, runTicks (fun _ => Color.mk 255 130 7) 765
            (([3661, 3661, 3660, 3600, 1800, 5, 0] : List Int).take k)
            (Sched.mk (Dev.mk (Color.mk 0 0 0) [] []) false) = some s ∧
          s.inProgress = true ∧
          resetCalls s.dev.calls = resetCalls [] + 1) :=
  C8_idle_to_rising_once (fun _ => Color.mk 255 130 7) 765 [3661, 3661, 3660, 3600, 1800, 5, 0]
    (Sched.mk (Dev.mk (Color.mk 0 0 0) [] []) false)
    (fun _ => (by decide : (Color.mk 255 130 7).wf)) (by decide) rfl rfl rfl (by decide)

/-- C9: a scheduler tick changes `inProgress` from true to false if and only if
`inProgress` was true and `SUNRISE_LENGTH + 60 < secsRemaining <= 24*3600 - HOLD_TIME`
(that is 3660 < secsRemaining <= 86355); in that case the tick returns, it performs
exactly one `resetColor` and no `setColor`, and afterwards the DeviceState is (0,0,0). -/
theorem C9_rising_to_idle (getBB : ℚ → Color) (fuel : Nat) (secs : Int) (s : Sched) :
    ((∃ s1, tick getBB fuel secs s = some s1 ∧ s.inProgress = true ∧ s1.inProgress = false)
      ↔ (s.inProgress = true ∧ SUNRISE_LENGTH + 60 < secs ∧ secs ≤ 24 * 3600 - HOLD_TIME)) ∧
    (s.inProgress = true ∧ SUNRISE_LENGTH + 60 < secs ∧ secs ≤ 24 * 3600 - HOLD_TIME →
      ∃ s1, tick getBB fuel secs s = some s1 ∧ s1.inProgress = false ∧
        s1.dev = resetColor s.dev ∧
        s1.dev.calls = s.dev.calls ++ [Call.resetColor] ∧
        s1.dev.currentColor = Color.mk 0 0 0) := by
  have key : s.inProgress = true ∧ SUNRISE_LENGTH + 60 < secs ∧ secs ≤ 24 * 3600 - HOLD_TIME →
      ∃ s1, tick getBB fuel secs s = some s1 ∧ s1.inProgress = false ∧
        s1.dev = resetColor s.dev ∧
        s1.dev.calls = s.dev.calls ++ [Call.resetColor] ∧
        s1.dev.currentColor = Color.mk 0 0 0 := by
    rintro ⟨hp, h1, h2⟩
    simp only [SUNRISE_LENGTH, HOLD_TIME] at h1 h2
    refine ⟨{ dev := resetColor s.dev, inProgress := false }, ?_, rfl, rfl, ?_, ?_⟩
    · rw [tick_mid getBB fuel secs s (by omega) (by omega), hp]
      rfl
    · simp [resetColor_eq]
    · simp [resetColor_eq]
  refine ⟨⟨?_, ?_⟩, key⟩
  · rintro ⟨s1, htick, hp, hq⟩
    refine ⟨hp, ?_⟩
    simp only [SUNRISE_LENGTH, HOLD_TIME]
    by_contra hcon
    have hcases : secs < 0 ∨ (0 ≤ secs ∧ secs ≤ 3600) ∨ (3600 < secs ∧ secs ≤ 3660)
        ∨ 86355 < secs := by omega
    rcases hcases with h | ⟨h1, h2⟩ | ⟨h1, h2⟩ | h
    · rw [tick_neg getBB fuel secs s h] at htick
      rw [← Option.some.inj htick, hp] at hq
      exact Bool.noConfusion hq
    · rw [tick_rise getBB fuel secs s h1 h2] at htick
      cases hset : setColor fuel (getBB (sunriseTemp secs))
          (if s.inProgress then s.dev else resetColor s.dev) with
      | none => simp [hset] at htick
      | some d1 =>
        simp only [hset, Option.map_some', Option.some.injEq] at htick
        rw [← htick] at hq
        exact Bool.noConfusion hq
    · rw [tick_pre getBB fuel secs s h1 h2, hp] at htick
      simp only [if_true, Option.some.injEq] at htick
      rw [← htick, hp] at hq
      exact Bool.noConfusion hq
    · by_cases hdemo : secs = DEMO
      · rw [hdemo, tick_demo] at htick
        cases hd : demo getBB fuel s.dev with
        | none => simp [hd] at htick
        | some d1 =>
          simp only [hd, Option.map_some', Option.some.injEq] at htick
          rw [← htick] at hq
          simp only at hq
          rw [hp] at hq
          exact Bool.noConfusion hq
      · rw [tick_hold getBB fuel secs s h hdemo] at htick
        rw [← Option.some.inj htick, hp] at hq
        exact Bool.noConfusion hq
  · intro h
    obtain ⟨s1, htick, hq, _⟩ := key h
    exact ⟨s1, htick, h.1, hq⟩

/-- Instance of C9: a tick at secsRemaining = 4000 with `inProgress` true. -/
theorem C9_rising_to_idle_witness :
    ∃ s1, tick (fun _ => Color.mk 255 130 7) 0 4000
        (Sched.mk (Dev.mk (Color.mk 63 32 1) [] []) true) = some s1 ∧
      s1.inProgress = false ∧
      s1.dev = resetColor (Dev.mk (Color.mk 63 32 1) [] []) ∧
      s1.dev.calls = [] ++ [Call.resetColor] ∧
      s1.dev.currentColor = Color.mk 0 0 0 :=
  (C9_rising_to_idle (fun _ => Color.mk 255 130 7) 0 4000
    (Sched.mk (Dev.mk (Color.mk 63 32 1) [] []) true)).2 (by decide)

theorem off_run (getBB : ℚ → Color) (fuel : Nat) (s : Sched) :
    ∀ n : Nat, runTicks getBB fuel (List.replicate n OFF) s = some s := by
  intro n
  induction n with
  | zero => rfl
  | succ n ih =>
    simp only [List.replicate_succ, runTicks, tick_off]
    exact ih

/-- C11: a scheduler tick is a complete no-op (the whole state is returned
unchanged: no command sent, no call made, same DeviceState, same `inProgress`), for
either value of `inProgress`, whenever `secsRemaining < 0`, `secsRemaining == OFF`,
or `24*3600 - HOLD_TIME < secsRemaining < 24*3600`; and any number of consecutive
OFF ticks, 100 among them, leaves the state unchanged. -/
theorem C11_noop_ticks (getBB : ℚ → Color) (fuel : Nat) (secs : Int) (s : Sched)
    (h : secs < 0 ∨ secs = OFF ∨ (24 * 3600 - HOLD_TIME < secs ∧ secs < 24 * 3600)) :
    tick getBB fuel secs s = some s ∧
    (∀ s1, tick getBB fuel secs s = some s1 →
      s1.dev.sent = s.dev.sent ∧ s1.dev.calls = s.dev.calls ∧
      s1.dev.currentColor = s.dev.currentColor ∧ s1.inProgress = s.inProgress) ∧
    (∀ n : Nat, runTicks getBB fuel (List.replicate n OFF) s = some s) ∧
    runTicks getBB fuel (List.replicate 100 OFF) s = some s := by
  have key : tick getBB fuel secs s = some s := by
    rcases h with h | h | ⟨h1, h2⟩
    · exact tick_neg getBB fuel secs s h
    · rw [h]
      exact tick_off getBB fuel s
    · simp only [HOLD_TIME] at h1
      exact tick_hold getBB fuel secs s (by omega) (by unfold DEMO; omega)
  refine ⟨key, ?_, off_run getBB fuel s, off_run getBB fuel s 100⟩
  intro s1 h1
  rw [key] at h1
  rw [← Option.some.inj h1]
  exact ⟨rfl, rfl, rfl, rfl⟩

/-- Instance of C11: a tick in the hold window, with `inProgress` true. -/
theorem C11_noop_ticks_witness :
    tick (fun _ => Color.mk 255 130 7) 0 86390
        (Sched.mk (Dev.mk (Color.mk 63 32 1) [] []) true)
      = some (Sched.mk (Dev.mk (Color.mk 63 32 1) [] []) true) :=
  (C11_noop_ticks (fun _ => Color.mk 255 130 7) 0 86390
    (Sched.mk (Dev.mk (Color.mk 63 32 1) [] []) true)
    (Or.inr (Or.inr (by decide)))).1

/-! ## Progress fraction and temperatures -/

theorem cube_bound (k n : ℚ) (hn : 0 < n) (h0 : 0 ≤ k) (h1 : k ≤ n) :
    0 ≤ (k / n) ^ 2 * (k * (4800 / n)) ∧ (k / n) ^ 2 * (k * (4800 / n)) ≤ 4800 := by
  have hx0 : 0 ≤ k / n := div_nonneg h0 hn.le
  have hx1 : k / n ≤ 1 := (div_le_one hn).mpr h1
  have hsq : (k / n) ^ 2 ≤ 1 := by nlinarith
  have e : k * (4800 / n) = (k / n) * 4800 := by field_simp
  rw [e]
  constructor
  · positivity
  · nlinarith [sq_nonneg (k / n)]

theorem sunriseTemp_bounds (secs : Int) (h0 : 0 ≤ secs) (h1 : secs ≤ 3600) :
    663 ≤ sunriseTemp secs ∧ sunriseTemp secs ≤ 5463 := by
  have hk0 : (0 : ℚ) ≤ ((SUNRISE_LENGTH - secs : Int) : ℚ) := by
    have : (0 : Int) ≤ SUNRISE_LENGTH - secs := by unfold SUNRISE_LENGTH; omega
    exact_mod_cast this
  have hk1 : ((SUNRISE_LENGTH - secs : Int) : ℚ) ≤ ((SUNRISE_LENGTH : Int) : ℚ) := by
    have : SUNRISE_LENGTH - secs ≤ SUNRISE_LENGTH := by omega
    exact_mod_cast this
  have hn : (0 : ℚ) < ((SUNRISE_LENGTH : Int) : ℚ) := by
    have : (0 : Int) < SUNRISE_LENGTH := by unfold SUNRISE_LENGTH; omega
    exact_mod_cast this
  have hb := cube_bound _ _ hn hk0 hk1
  unfold sunriseTemp
  constructor
  · linarith [hb.1]
  · linarith [hb.2]

theorem demoTemp_bounds (i : Nat) (hi : i < 60) :
    663 ≤ demoTemp i ∧ demoTemp i ≤ 5463 := by
  have hk0 : (0 : ℚ) ≤ (i : ℚ) := Nat.cast_nonneg i
  have hk1 : (i : ℚ) ≤ 60 := by exact_mod_cast hi.le
  have hb := cube_bound (i : ℚ) 60 (by norm_num) hk0 hk1
  unfold demoTemp
  constructor
  · linarith [hb.1]
  · linarith [hb.2]

theorem progress_bounds (secs : Int) (h0 : 0 ≤ secs) (h1 : secs ≤ 3600) :
    0 ≤ sunriseProgress secs ∧ sunriseProgress secs ≤ 1 ∧
      (sunriseProgress secs < 1 ↔ 0 < secs) := by
  have e : sunriseProgress secs = (3600 - (secs : ℚ)) / 3600 := by
    unfold sunriseProgress SUNRISE_LENGTH
    push_cast
    rfl
  have hs0 : (0 : ℚ) ≤ (secs : ℚ) := by exact_mod_cast h0
  have hs1 : (secs : ℚ) ≤ 3600 := by exact_mod_cast h1
  rw [e]
  refine ⟨div_nonneg (by linarith) (by norm_num), (div_le_one (by norm_num)).mpr (by linarith), ?_⟩
  rw [div_lt_one (by norm_num)]
  constructor
  · intro h
    have : (0 : ℚ) < (secs : ℚ) := by linarith
    exact_mod_cast this
  · intro h
    have : (0 : ℚ) < (secs : ℚ) := by exact_mod_cast h
    linarith

theorem sunriseTemp_progress (secs : Int) :
    sunriseTemp secs = (sunriseProgress secs) ^ 2
      * (((SUNRISE_LENGTH - secs : Int) : ℚ) * (4800 / (SUNRISE_LENGTH : ℚ))) + 663 := rfl

/-- C12 fails at `secsRemaining = 0`: that value is in the range
`0 <= secsRemaining <= SUNRISE_LENGTH`, a tick with it and `inProgress` true computes
a colour from `sunriseTemp 0`, and the progress fraction there is 1, which is not
strictly less than 1. -/
theorem C12_progress_counterexample :
    (0 : Int) ≤ 0 ∧ (0 : Int) ≤ SUNRISE_LENGTH ∧
    (∃ s1, tick (fun _ => Color.mk 255 130 7) 765 0
        (Sched.mk (Dev.mk (Color.mk 0 0 0) [] []) true) = some s1 ∧
      s1.dev.calls = [Call.setColor ((fun _ => Color.mk 255 130 7) (sunriseTemp 0))]) ∧
    sunriseTemp 0 = (sunriseProgress 0) ^ 2
      * (((SUNRISE_LENGTH - 0 : Int) : ℚ) * (4800 / (SUNRISE_LENGTH : ℚ))) + 663 ∧
    sunriseProgress 0 = 1 ∧
    ¬ (0 ≤ sunriseProgress 0 ∧ sunriseProgress 0 < 1) := by
  have e : sunriseProgress 0 = 1 := by
    norm_num [sunriseProgress, SUNRISE_LENGTH]
  refine ⟨le_refl _, by decide, ?_, rfl, e, ?_⟩
  · obtain ⟨d1, steps, hset, _, hcalls, _⟩ :=
      setColor_total 765 (le_refl _) (Color.mk 255 130 7) (Dev.mk (Color.mk 0 0 0) [] [])
        (by decide) (by decide)
    refine ⟨{ dev := d1, inProgress := true }, ?_, ?_⟩
    · rw [tick_rise _ _ _ _ (le_refl _) (by decide)]
      simp only [if_true]
      rw [hset]
      rfl
    · simpa using hcalls
  · rw [e]
    intro h
    exact lt_irrefl _ h.2

/-- C12 as amended: on a tick with `0 <= secsRemaining <= SUNRISE_LENGTH` the
progress fraction `(SUNRISE_LENGTH - secsRemaining) / SUNRISE_LENGTH` that feeds the
temperature formula lies in the closed interval [0,1]; it is strictly less than 1
exactly when `secsRemaining > 0`. -/
theorem C12_progress_closed (secs : Int) (h0 : 0 ≤ secs) (h1 : secs ≤ SUNRISE_LENGTH) :
    0 ≤ sunriseProgress secs ∧ sunriseProgress secs ≤ 1 ∧
    (sunriseProgress secs < 1 ↔ 0 < secs) ∧
    sunriseProgress secs = ((3600 : ℚ) - (secs : ℚ)) / 3600 ∧
    sunriseTemp secs = (sunriseProgress secs) ^ 2
      * (((SUNRISE_LENGTH - secs : Int) : ℚ) * (4800 / (SUNRISE_LENGTH : ℚ))) + 663 := by
  obtain ⟨a, b, c⟩ := progress_bounds secs h0 h1
  refine ⟨a, b, c, ?_, rfl⟩
  unfold sunriseProgress SUNRISE_LENGTH
  push_cast
  rfl

/-- Instance of C12 as amended, at `secsRemaining = 1800`. -/
theorem C12_progress_closed_witness :
    0 ≤ sunriseProgress 1800 ∧ sunriseProgress 1800 ≤ 1 ∧
    (sunriseProgress 1800 < 1 ↔ (0 : Int) < 1800) ∧
    sunriseProgress 1800 = ((3600 : ℚ) - ((1800 : Int) : ℚ)) / 3600 ∧
    sunriseTemp 1800 = (sunriseProgress 1800) ^ 2
      * (((SUNRISE_LENGTH - 1800 : Int) : ℚ) * (4800 / (SUNRISE_LENGTH : ℚ))) + 663 :=
  C12_progress_closed 1800 (by decide) (by decide)

/-! ## getBB -/

theorem clamp_bounds (v lo hi : ℚ) (h : lo ≤ hi) : lo ≤ clamp v lo hi ∧ clamp v lo hi ≤ hi := by
  unfold clamp
  split_ifs with h1 h2
  · exact ⟨h, le_refl _⟩
  · exact ⟨le_refl _, h⟩
  · exact ⟨le_of_lt (not_le.mp h2), le_of_lt (not_le.mp h1)⟩

theorem toUChar_le (x : ℚ) : toUChar x ≤ 255 := by
  unfold toUChar
  omega

theorem hue_le (pow : ℚ → ℚ → ℚ) (log : ℚ → ℚ) (temp : ℚ) :
    (getBB.hue pow log temp).r ≤ 255 ∧ (getBB.hue pow log temp).g ≤ 255 ∧
      (getBB.hue pow log temp).b ≤ 255 := by
  unfold getBB.hue
  refine ⟨?_, ?_, ?_⟩
  · simp only
    split_ifs
    · exact le_refl _
    · exact toUChar_le _
  · simp only
    split_ifs
    · exact toUChar_le _
    · exact toUChar_le _
  · simp only
    split_ifs
    · exact le_refl _
    · exact Nat.zero_le _
    · exact toUChar_le _

theorem brightness_bounds (pow : ℚ → ℚ → ℚ) (temp : ℚ) :
    0 ≤ getBB.brightness pow temp ∧ getBB.brightness pow temp ≤ 1 := by
  have h := clamp_bounds (pow ((temp - 6.59) / 35) 0.2) 0.0 1.0 (by norm_num)
  unfold getBB.brightness
  constructor
  · have := h.1
    norm_num at this ⊢
    exact this
  · have := h.2
    norm_num at this ⊢
    exact this

theorem num_le_den (b : ℚ) (h0 : 0 ≤ b) (h1 : b ≤ 1) : Int.toNat b.num ≤ b.den := by
  have hn : 0 ≤ b.num := Rat.num_nonneg.mpr h0
  have hd : (0 : ℚ) < (b.den : ℚ) := by exact_mod_cast b.den_pos
  have e : (b.num : ℚ) / (b.den : ℚ) = b := Rat.num_div_den b
  have h2 : (b.num : ℚ) ≤ (b.den : ℚ) := by
    rw [← e, div_le_one hd] at h1
    exact h1
  have h3 : b.num ≤ (b.den : Int) := by exact_mod_cast h2
  omega

theorem mulAssign_le (c : Color) (num den : Nat) (h : num ≤ den) :
    (c.mulAssign num den).r ≤ c.r ∧ (c.mulAssign num den).g ≤ c.g ∧
      (c.mulAssign num den).b ≤ c.b := by
  have key : ∀ x : Nat, (x * num / den) % 256 ≤ x := by
    intro x
    have h1 : x * num / den ≤ x := by
      rcases Nat.eq_zero_or_pos den with hd | hd
      · rw [hd, Nat.div_zero]
        exact Nat.zero_le _
      · apply Nat.div_le_of_le_mul
        rw [Nat.mul_comm den x]
        exact Nat.mul_le_mul_left x h
    exact le_trans (Nat.mod_le _ _) h1
  exact ⟨key _, key _, key _⟩

theorem getBB_le_hue (pow : ℚ → ℚ → ℚ) (log : ℚ → ℚ) (t : ℚ) :
    (getBB pow log t).r ≤ (getBB.hue pow log (t / 100)).r ∧
    (getBB pow log t).g ≤ (getBB.hue pow log (t / 100)).g ∧
    (getBB pow log t).b ≤ (getBB.hue pow log (t / 100)).b := by
  have hb := brightness_bounds pow (t / 100)
  exact mulAssign_le _ _ _ (num_le_den _ hb.1 hb.2)

theorem getBB_wf (pow : ℚ → ℚ → ℚ) (log : ℚ → ℚ) (t : ℚ) : (getBB pow log t).wf := by
  have h1 := getBB_le_hue pow log t
  have h2 := hue_le pow log (t / 100)
  exact ⟨by omega, by omega, by omega⟩

/-! ## getBB with roundings -/

theorem rounding_nat (r : ℚ → ℚ) (h : IsRounding r) (n : Nat) (hn : n ≤ 16777216) :
    r (n : ℚ) = (n : ℚ) := by
  have h1 := h.2 (n : Int) 0 (by rw [abs_of_nonneg (Int.natCast_nonneg n)]; exact_mod_cast hn)
    (Nat.zero_le _)
  simpa using h1

theorem rounding_sixteenth (r : ℚ → ℚ) (h : IsRounding r) : r (1 / 16) = 1 / 16 := by
  have h1 := h.2 1 4 (by norm_num) (by norm_num)
  norm_num at h1
  norm_num
  exact h1

theorem floatToUChar_range (x : ℚ) (n : Nat) (h0 : 0 ≤ x) (h1 : x ≤ (n : ℚ)) (hn : n ≤ 255) :
    ∃ k, floatToUChar x = some k ∧ k ≤ n := by
  have hlt : x < 256 := by
    have : (n : ℚ) ≤ 255 := by exact_mod_cast hn
    linarith
  refine ⟨Int.toNat (Int.floor x), ?_, ?_⟩
  · unfold floatToUChar
    rw [if_pos ⟨by linarith, hlt⟩]
  · rw [Int.toNat_le]
    have h2 : ((Int.floor x : Int) : ℚ) ≤ x := Int.floor_le x
    have h3 : ((Int.floor x : Int) : ℚ) ≤ ((n : Int) : ℚ) := by
      push_cast
      linarith
    exact_mod_cast h3

theorem floatToUChar_clamp (x : ℚ) : ∃ k, floatToUChar (clamp x 0 255) = some k ∧ k ≤ 255 := by
  have hc := clamp_bounds x 0 255 (by norm_num)
  exact floatToUChar_range _ 255 hc.1 (by exact_mod_cast hc.2) (le_refl _)

theorem red_defined (F : FloatOps) (temp : ℚ) :
    ∃ k, getBBFloat.red F temp = some k ∧ k ≤ 255 := by
  unfold getBBFloat.red
  split_ifs
  · exact ⟨255, rfl, le_refl _⟩
  · exact floatToUChar_clamp _

theorem grn_defined (F : FloatOps) (temp : ℚ) :
    ∃ k, getBBFloat.grn F temp = some k ∧ k ≤ 255 := by
  unfold getBBFloat.grn
  split_ifs
  · exact floatToUChar_clamp _
  · exact floatToUChar_clamp _

theorem blu_defined (F : FloatOps) (temp : ℚ) :
    ∃ k, getBBFloat.blu F temp = some k ∧ k ≤ 255 := by
  unfold getBBFloat.blu
  split_ifs
  · exact ⟨255, rfl, le_refl _⟩
  · exact ⟨0, rfl, Nat.zero_le _⟩
  · exact floatToUChar_clamp _

theorem brightnessF_bounds (F : FloatOps) (temp : ℚ) :
    0 ≤ getBBFloat.brightness F temp ∧ getBBFloat.brightness F temp ≤ 1 := by
  have h := clamp_bounds (F.f32 (F.pow (getBBFloat.base F temp) (F.f64 0.2))) 0.0 1.0
    (by norm_num)
  unfold getBBFloat.brightness
  constructor
  · have := h.1
    norm_num at this ⊢
    exact this
  · have := h.2
    norm_num at this ⊢
    exact this

theorem mul_channel (r : ℚ → ℚ) (h : IsRounding r) (n : Nat) (hn : n ≤ 255) (b : ℚ)
    (hb0 : 0 ≤ b) (hb1 : b ≤ 1) :
    (0 ≤ (n : ℚ) * b ∧ (n : ℚ) * b ≤ (n : ℚ)) ∧
    (0 ≤ r ((n : ℚ) * b) ∧ r ((n : ℚ) * b) ≤ (n : ℚ)) ∧
    ∃ k, floatToUChar (r ((n : ℚ) * b)) = some k ∧ k ≤ n := by
  have hn0 : (0 : ℚ) ≤ (n : ℚ) := Nat.cast_nonneg n
  have p0 : 0 ≤ (n : ℚ) * b := mul_nonneg hn0 hb0
  have p1 : (n : ℚ) * b ≤ (n : ℚ) := mul_le_of_le_one_right hn0 hb1
  have r0 : r 0 = 0 := by
    have := rounding_nat r h 0 (by norm_num)
    simpa using this
  have rn : r (n : ℚ) = (n : ℚ) := rounding_nat r h n (by omega)
  have q0 : 0 ≤ r ((n : ℚ) * b) := by
    have := h.1 _ _ p0
    rw [r0] at this
    exact this
  have q1 : r ((n : ℚ) * b) ≤ (n : ℚ) := by
    have := h.1 _ _ p1
    rw [rn] at this
    exact this
  exact ⟨⟨p0, p1⟩, ⟨q0, q1⟩, floatToUChar_range _ n q0 q1 hn⟩

theorem temp_ge_ten (F : FloatOps) (h32 : IsRounding F.f32) (t : ℚ) (h0 : 1000 ≤ t) :
    10 ≤ F.f32 (t / 100) := by
  have h1 : (10 : ℚ) ≤ t / 100 := by
    rw [le_div_iff₀ (by norm_num)]
    linarith
  have h2 := h32.1 _ _ h1
  have h3 := rounding_nat F.f32 h32 10 (by norm_num)
  norm_num at h3
  rw [h3] at h2
  exact h2

theorem base_pos (F : FloatOps) (h32 : IsRounding F.f32) (h64 : IsRounding F.f64) (temp : ℚ)
    (ht : 10 ≤ temp) : 1 / 16 ≤ getBBFloat.base F temp := by
  have c7 : F.f64 6.59 ≤ 7 := by
    have h1 := h64.1 6.59 7 (by norm_num)
    have h2 := rounding_nat F.f64 h64 7 (by norm_num)
    norm_num at h2
    rw [h2] at h1
    exact h1
  have e3 : F.f64 3 = 3 := by
    have h2 := rounding_nat F.f64 h64 3 (by norm_num)
    norm_num at h2
    exact h2
  have f3 : F.f32 3 = 3 := by
    have h2 := rounding_nat F.f32 h32 3 (by norm_num)
    norm_num at h2
    exact h2
  have a1 : 3 ≤ F.f64 (temp - F.f64 6.59) := by
    have := h64.1 3 (temp - F.f64 6.59) (by linarith)
    rw [e3] at this
    exact this
  have a2 : 3 ≤ F.f32 (F.f64 (temp - F.f64 6.59)) := by
    have := h32.1 3 _ a1
    rw [f3] at this
    exact this
  have a3 : (1 : ℚ) / 16 ≤ F.f32 (F.f64 (temp - F.f64 6.59)) / 35 := by
    rw [le_div_iff₀ (by norm_num)]
    linarith
  have := h32.1 _ _ a3
  rw [rounding_sixteenth F.f32 h32] at this
  exact this

theorem toUChar_clamp_eq (x : ℚ) :
    floatToUChar (clamp x 0 255) = some (toUChar (clamp x 0 255)) := by
  obtain ⟨k, hk, hle⟩ := floatToUChar_clamp x
  have hc := clamp_bounds x 0 255 (by norm_num)
  unfold floatToUChar at hk ⊢
  rw [if_pos ⟨by linarith [hc.1], by linarith [hc.2]⟩] at hk ⊢
  have e : Int.toNat (Int.floor (clamp x 0 255)) = k := Option.some.inj hk
  unfold toUChar
  rw [e, Nat.mod_eq_of_lt (by omega)]

theorem floor_mul_rat (n : Nat) (b : ℚ) (hb : 0 ≤ b) :
    Int.toNat (Int.floor ((n : ℚ) * b)) = n * Int.toNat b.num / b.den := by
  have hnum : 0 ≤ b.num := Rat.num_nonneg.mpr hb
  have e : (n : ℚ) * b = (((n : Int) * b.num : Int) : ℚ) / ((b.den : Nat) : ℚ) := by
    conv_lhs => rw [← Rat.num_div_den b]
    push_cast
    ring
  rw [e, Rat.floor_intCast_div_natCast]
  have e2 : (n : Int) * b.num = ((n * Int.toNat b.num : Nat) : Int) := by
    push_cast
    rw [Int.toNat_of_nonneg hnum]
  rw [e2, ← Int.natCast_div, Int.toNat_natCast]

theorem mulAssign_exact (c : Color) (b : ℚ) (hc : c.r ≤ 255 ∧ c.g ≤ 255 ∧ c.b ≤ 255)
    (hb0 : 0 ≤ b) (hb1 : b ≤ 1) :
    Color.mulAssignFloat id c b = some (c.mulAssign (Int.toNat b.num) b.den) := by
  have key : ∀ n : Nat, n ≤ 255 →
      floatToUChar (id ((n : ℚ) * b)) = some ((n * Int.toNat b.num / b.den) % 256) := by
    intro n hn
    have hn0 : (0 : ℚ) ≤ (n : ℚ) := Nat.cast_nonneg n
    have p0 : 0 ≤ (n : ℚ) * b := mul_nonneg hn0 hb0
    have p1 : (n : ℚ) * b ≤ (n : ℚ) := mul_le_of_le_one_right hn0 hb1
    obtain ⟨k, hk, hle⟩ := floatToUChar_range _ n p0 p1 hn
    have hlt : (n : ℚ) * b < 256 := by
      have : (n : ℚ) ≤ 255 := by exact_mod_cast hn
      linarith
    simp only [id]
    unfold floatToUChar at hk ⊢
    rw [if_pos ⟨by linarith, hlt⟩] at hk ⊢
    have e : Int.toNat (Int.floor ((n : ℚ) * b)) = k := Option.some.inj hk
    rw [floor_mul_rat n b hb0] at e ⊢
    rw [Nat.mod_eq_of_lt (by omega)]
  unfold Color.mulAssignFloat Color.mulAssign
  rw [key _ hc.1, key _ hc.2.1, key _ hc.2.2]

theorem getBBFloat_exact (pow : ℚ → ℚ → ℚ) (log : ℚ → ℚ) (t : ℚ) :
    getBBFloat (FloatOps.mk id id pow log) t = some (getBB pow log t) := by
  have hr : getBBFloat.red (FloatOps.mk id id pow log) (t / 100)
      = some (getBB.hue pow log (t / 100)).r := by
    unfold getBBFloat.red getBB.hue
    simp only [id]
    split_ifs
    · rfl
    · exact toUChar_clamp_eq _
  have hg : getBBFloat.grn (FloatOps.mk id id pow log) (t / 100)
      = some (getBB.hue pow log (t / 100)).g := by
    unfold getBBFloat.grn getBB.hue
    simp only [id]
    split_ifs
    · exact toUChar_clamp_eq _
    · exact toUChar_clamp_eq _
  have hb : getBBFloat.blu (FloatOps.mk id id pow log) (t / 100)
      = some (getBB.hue pow log (t / 100)).b := by
    unfold getBBFloat.blu getBB.hue
    simp only [id]
    split_ifs
    · rfl
    · rfl
    · exact toUChar_clamp_eq _
  have hbr : getBBFloat.brightness (FloatOps.mk id id pow log) (t / 100)
      = getBB.brightness pow (t / 100) := by
    unfold getBBFloat.brightness getBBFloat.base getBB.brightness
    simp only [id]
  have hbb := brightness_bounds pow (t / 100)
  have hh := hue_le pow log (t / 100)
  unfold getBBFloat getBB
  simp only [id, hr, hg, hb, hbr]
  exact mulAssign_exact _ _ hh hbb.1 hbb.2

theorem mulAssignFloat_quarter (f32 : ℚ → ℚ) (h : IsRounding f32) (c : Color) (hc : c.wf) :
    Color.mulAssignFloat f32 c 0.25 = some (c.mulAssign 1 4) := by
  have key : ∀ n : Nat, n < 256 →
      floatToUChar (f32 ((n : ℚ) * 0.25)) = some ((n * 1 / 4) % 256) := by
    intro n hn
    have e1 : (n : ℚ) * 0.25 = ((n : Int) : ℚ) / 2 ^ 2 := by
      push_cast
      norm_num
      ring
    have e2 : f32 ((n : ℚ) * 0.25) = ((n : Int) : ℚ) / ((4 : Nat) : ℚ) := by
      rw [e1, h.2 (n : Int) 2 (by rw [abs_of_nonneg (Int.natCast_nonneg n)]; omega)
        (by norm_num)]
      norm_num
    have e3 : Int.floor (((n : Int) : ℚ) / ((4 : Nat) : ℚ)) = (n : Int) / 4 := by
      rw [Rat.floor_intCast_div_natCast]
      rfl
    have hn0 : (0 : ℚ) ≤ ((n : Int) : ℚ) := by exact_mod_cast Nat.zero_le n
    have hn1 : ((n : Int) : ℚ) < 256 := by exact_mod_cast hn
    have r0 : (-1 : ℚ) < ((n : Int) : ℚ) / ((4 : Nat) : ℚ) := by
      have : (0 : ℚ) ≤ ((n : Int) : ℚ) / ((4 : Nat) : ℚ) := div_nonneg hn0 (by norm_num)
      linarith
    have r1 : ((n : Int) : ℚ) / ((4 : Nat) : ℚ) < 256 := by
      rw [div_lt_iff₀ (by norm_num)]
      push_cast
      linarith
    rw [e2]
    unfold floatToUChar
    rw [if_pos ⟨r0, r1⟩, e3]
    congr 1
    omega
  unfold Color.mulAssignFloat Color.mulAssign
  rw [key _ hc.1, key _ hc.2.1, key _ hc.2.2]

theorem floatToUChar_nat (n : Nat) (hn : n ≤ 255) : floatToUChar (n : ℚ) = some n := by
  have h0 : (0 : ℚ) ≤ (n : ℚ) := Nat.cast_nonneg n
  have h1 : (n : ℚ) < 256 := by
    have : (n : ℚ) ≤ 255 := by exact_mod_cast hn
    linarith
  unfold floatToUChar
  rw [if_pos ⟨by linarith, h1⟩, Int.floor_natCast, Int.toNat_natCast]

/-- With roundings too, `getBB(6600)` has red 255 and blue 255: the temperature 66
and the products with the brightness 1 are exact. -/
theorem getBBFloat_6600 (F : FloatOps) (h32 : IsRounding F.f32) (h64 : IsRounding F.f64)
    (hpow : ∀ x y : ℚ, 1 ≤ x → 0 ≤ y → 1 ≤ F.pow x y) :
    ∃ c, getBBFloat F 6600 = some c ∧ c.r = 255 ∧ c.b = 255 := by
  have nat32 : ∀ n : Nat, n ≤ 255 → F.f32 (n : ℚ) = (n : ℚ) :=
    fun n hn => rounding_nat F.f32 h32 n (by omega)
  have nat64 : ∀ n : Nat, n ≤ 255 → F.f64 (n : ℚ) = (n : ℚ) :=
    fun n hn => rounding_nat F.f64 h64 n (by omega)
  have eT : F.f32 (6600 / 100) = 66 := by
    have h := nat32 66 (by norm_num)
    norm_num at h ⊢
    exact h
  have hr : getBBFloat.red F 66 = some 255 := by
    unfold getBBFloat.red
    rw [if_pos (le_refl _)]
  have hb : getBBFloat.blu F 66 = some 255 := by
    unfold getBBFloat.blu
    rw [if_pos (le_refl _)]
  obtain ⟨g, hg, hg255⟩ := grn_defined F 66
  have c7 : F.f64 6.59 ≤ 7 := by
    have h1 := h64.1 6.59 7 (by norm_num)
    have h2 := nat64 7 (by norm_num)
    norm_num at h2
    rw [h2] at h1
    exact h1
  have a1 : 59 ≤ F.f64 (66 - F.f64 6.59) := by
    have h1 := h64.1 59 (66 - F.f64 6.59) (by linarith)
    have h2 := nat64 59 (by norm_num)
    norm_num at h2
    rw [h2] at h1
    exact h1
  have a2 : 59 ≤ F.f32 (F.f64 (66 - F.f64 6.59)) := by
    have h1 := h32.1 59 _ a1
    have h2 := nat32 59 (by norm_num)
    norm_num at h2
    rw [h2] at h1
    exact h1
  have one32 : F.f32 1 = 1 := by
    have h2 := nat32 1 (by norm_num)
    norm_num at h2
    exact h2
  have a3 : 1 ≤ getBBFloat.base F 66 := by
    unfold getBBFloat.base
    have h1 : (1 : ℚ) ≤ F.f32 (F.f64 (66 - F.f64 6.59)) / 35 := by
      rw [le_div_iff₀ (by norm_num)]
      linarith
    have h2 := h32.1 _ _ h1
    rw [one32] at h2
    exact h2
  have e02 : 0 ≤ F.f64 0.2 := by
    have h1 := h64.1 0 0.2 (by norm_num)
    have h2 := nat64 0 (by norm_num)
    norm_num at h2
    rw [h2] at h1
    exact h1
  have hbr : getBBFloat.brightness F 66 = 1 := by
    have hp := hpow _ _ a3 e02
    have h2 := h32.1 _ _ hp
    rw [one32] at h2
    unfold getBBFloat.brightness clamp
    rw [if_pos]
    · norm_num
    · have e1 : (1.0 : ℚ) = 1 := by norm_num
      rw [e1]
      exact h2
  refine ⟨{ r := 255, g := g, b := 255 }, ?_, rfl, rfl⟩
  unfold getBBFloat
  simp only [eT, hr, hg, hb, hbr]
  unfold Color.mulAssignFloat
  simp only [mul_one]
  have k255 : floatToUChar (F.f32 ((255 : Nat) : ℚ)) = some 255 := by
    rw [nat32 255 (le_refl _)]
    exact floatToUChar_nat 255 (le_refl _)
  have kg : floatToUChar (F.f32 (g : ℚ)) = some g := by
    rw [nat32 g hg255]
    exact floatToUChar_nat g hg255
  rw [k255, kg]

/-- C13: for every temperature `t` with `1000 <= t <= 40000`, `getBB(t)` is defined
(no conversion to `unsigned char` is out of range) and each of its channels lies in
[0,255]; the base `(t/100 - 6.59)/35` of the brightness power is positive, both as
written and as computed in `float`, and so is every other base of `pow` and argument
of `log`; the brightness after clamping lies in [0,1]; and the product of a clamped
channel with it is never negative: exact or rounded to `float`, it lies between 0
and the unscaled channel, and so does the channel stored. (Any roundings that are
monotone and exact on `float` values, any `pow` and `log`.) -/
theorem C13_getBB_bounds (F : FloatOps) (t : ℚ)
    (h32 : IsRounding F.f32) (h64 : IsRounding F.f64) (h0 : 1000 ≤ t) (_h1 : t ≤ 40000) :
    ∃ (r g b : Nat) (c : Color),
      (getBBFloat.red F (F.f32 (t / 100)) = some r ∧
        getBBFloat.grn F (F.f32 (t / 100)) = some g ∧
        getBBFloat.blu F (F.f32 (t / 100)) = some b) ∧
      getBBFloat F t = some c ∧
      (r ≤ 255 ∧ g ≤ 255 ∧ b ≤ 255) ∧
      (c.r ≤ 255 ∧ c.g ≤ 255 ∧ c.b ≤ 255) ∧
      (0 < F.f32 (t / 100) ∧
        (¬ F.f32 (t / 100) ≤ 66 → 0 < F.f32 (F.f32 (t / 100) - 60)) ∧
        (¬ F.f32 (t / 100) ≤ 19 → 0 < F.f32 (F.f32 (t / 100) - 10))) ∧
      0 < (t / 100 - 6.59) / 35 ∧
      0 < getBBFloat.base F (F.f32 (t / 100)) ∧
      (0 ≤ getBBFloat.brightness F (F.f32 (t / 100)) ∧
        getBBFloat.brightness F (F.f32 (t / 100)) ≤ 1) ∧
      ((0 ≤ (r : ℚ) * getBBFloat.brightness F (F.f32 (t / 100)) ∧
          (r : ℚ) * getBBFloat.brightness F (F.f32 (t / 100)) ≤ (r : ℚ)) ∧
        (0 ≤ F.f32 ((r : ℚ) * getBBFloat.brightness F (F.f32 (t / 100))) ∧
          F.f32 ((r : ℚ) * getBBFloat.brightness F (F.f32 (t / 100))) ≤ (r : ℚ)) ∧
        c.r ≤ r) ∧
      ((0 ≤ (g : ℚ) * getBBFloat.brightness F (F.f32 (t / 100)) ∧
          (g : ℚ) * getBBFloat.brightness F (F.f32 (t / 100)) ≤ (g : ℚ)) ∧
        (0 ≤ F.f32 ((g : ℚ) * getBBFloat.brightness F (F.f32 (t / 100))) ∧
          F.f32 ((g : ℚ) * getBBFloat.brightness F (F.f32 (t / 100))) ≤ (g : ℚ)) ∧
        c.g ≤ g) ∧
      ((0 ≤ (b : ℚ) * getBBFloat.brightness F (F.f32 (t / 100)) ∧
          (b : ℚ) * getBBFloat.brightness F (F.f32 (t / 100)) ≤ (b : ℚ)) ∧
        (0 ≤ F.f32 ((b : ℚ) * getBBFloat.brightness F (F.f32 (t / 100))) ∧
          F.f32 ((b : ℚ) * getBBFloat.brightness F (F.f32 (t / 100))) ≤ (b : ℚ)) ∧
        c.b ≤ b) := by
  obtain ⟨r, hr, hr255⟩ := red_defined F (F.f32 (t / 100))
  obtain ⟨g, hg, hg255⟩ := grn_defined F (F.f32 (t / 100))
  obtain ⟨b, hb, hb255⟩ := blu_defined F (F.f32 (t / 100))
  have hbr := brightnessF_bounds F (F.f32 (t / 100))
  obtain ⟨pr, qr, kr, hkr, hler⟩ := mul_channel F.f32 h32 r hr255 _ hbr.1 hbr.2
  obtain ⟨pg, qg, kg, hkg, hleg⟩ := mul_channel F.f32 h32 g hg255 _ hbr.1 hbr.2
  obtain ⟨pb, qb, kb, hkb, hleb⟩ := mul_channel F.f32 h32 b hb255 _ hbr.1 hbr.2
  have hT := temp_ge_ten F h32 t h0
  have hbase := base_pos F h32 h64 _ hT
  have f6 : F.f32 6 = 6 := by
    have h2 := rounding_nat F.f32 h32 6 (by norm_num)
    norm_num at h2
    exact h2
  have f9 : F.f32 9 = 9 := by
    have h2 := rounding_nat F.f32 h32 9 (by norm_num)
    norm_num at h2
    exact h2
  refine ⟨r, g, b, { r := kr, g := kg, b := kb }, ⟨hr, hg, hb⟩, ?_, ⟨hr255, hg255, hb255⟩,
    ⟨by simp only; omega, by simp only; omega, by simp only; omega⟩,
    ⟨by linarith, ?_, ?_⟩, ?_, by linarith, hbr, ⟨pr, qr, hler⟩, ⟨pg, qg, hleg⟩, ⟨pb, qb, hleb⟩⟩
  · unfold getBBFloat
    simp only [hr, hg, hb]
    unfold Color.mulAssignFloat
    simp only [hkr, hkg, hkb]
  · intro h66
    have := h32.1 6 (F.f32 (t / 100) - 60) (by linarith)
    rw [f6] at this
    linarith
  · intro h19
    have := h32.1 9 (F.f32 (t / 100) - 10) (by linarith)
    rw [f9] at this
    linarith
  · apply div_pos
    · norm_num
      linarith
    · norm_num

/-- Instance of C13 at 6600 K, with exact arithmetic, `pow x y = x` and `log x = x`. -/
theorem C13_getBB_bounds_witness :
    ∃ c : Color, getBBFloat (FloatOps.mk id id (fun x _ => x) (fun x => x)) 6600 = some c ∧
      c.r ≤ 255 ∧ c.g ≤ 255 ∧ c.b ≤ 255 := by
  obtain ⟨_, _, _, c, _, hc, _, hle, _⟩ :=
    C13_getBB_bounds (FloatOps.mk id id (fun x _ => x) (fun x => x)) 6600
      ⟨fun _ _ h => h, fun _ _ _ _ => rfl⟩ ⟨fun _ _ h => h, fun _ _ _ _ => rfl⟩
      (by norm_num) (by norm_num)
  exact ⟨c, hc, hle⟩

/-- C14: at the branch boundary `t = 6600` both the `temp <= 66` red branch and the
`temp >= 66` blue branch apply and the brightness `((66 - 6.59)/35)^0.2` clamps to 1,
so `getBB(6600)` returns red = 255 and blue = 255. (`pow` is any function that is at
least 1 on a base of at least 1 with a non-negative exponent, as the power is.) -/
theorem C14_getBB_6600 (pow : ℚ → ℚ → ℚ) (log : ℚ → ℚ)
    (hpow : ∀ x y : ℚ, 1 ≤ x → 0 ≤ y → 1 ≤ pow x y) :
    ((6600 : ℚ) / 100 ≤ 66 ∧ (6600 : ℚ) / 100 ≥ 66) ∧
    (getBB.hue pow log (6600 / 100)).r = 255 ∧
    (getBB.hue pow log (6600 / 100)).b = 255 ∧
    1 ≤ pow ((66 - 6.59) / 35) 0.2 ∧
    getBB.brightness pow (6600 / 100) = 1 ∧
    (getBB pow log 6600).r = 255 ∧
    (getBB pow log 6600).b = 255 := by
  have e66 : (6600 : ℚ) / 100 = 66 := by norm_num
  have hp : 1 ≤ pow ((66 - 6.59) / 35) 0.2 := hpow _ _ (by norm_num) (by norm_num)
  have hb : getBB.brightness pow (6600 / 100) = 1 := by
    unfold getBB.brightness clamp
    rw [e66, if_pos]
    · norm_num
    · have e1 : (1.0 : ℚ) = 1 := by norm_num
      rw [e1]
      exact hp
  have hr : (getBB.hue pow log (6600 / 100)).r = 255 := by
    unfold getBB.hue
    simp only
    rw [if_pos (le_of_eq e66)]
  have hbl : (getBB.hue pow log (6600 / 100)).b = 255 := by
    unfold getBB.hue
    simp only
    rw [if_pos (ge_of_eq e66)]
  refine ⟨⟨le_of_eq e66, ge_of_eq e66⟩, hr, hbl, hp, hb, ?_, ?_⟩
  · unfold getBB
    simp only [hb, Color.mulAssign, hr]
    rfl
  · unfold getBB
    simp only [hb, Color.mulAssign, hbl]
    rfl

/-- Instance of C14 with `pow x y = max x 1`. -/
theorem C14_getBB_6600_witness :
    (getBB (fun x _ => max x 1) (fun x => x) 6600).r = 255 ∧
    (getBB (fun x _ => max x 1) (fun x => x) 6600).b = 255 :=
  (C14_getBB_6600 (fun x _ => max x 1) (fun x => x)
    (fun x _ _ _ => le_max_right x 1)).2.2.2.2.2

/-! ## getSecsRemaining -/

theorem substr_zero (l : List Char) : substr l 0 2 = Except.ok (l.take 2) := by
  simp [substr]

theorem substr_two_short (l : List Char) (h : l.length < 2) :
    substr l 2 2 = Except.error Exn.out_of_range := by
  simp [substr, h]

theorem substr_two (l : List Char) (h : ¬ l.length < 2) :
    substr l 2 2 = Except.ok ((l.drop 2).take 2) := by
  have : ¬ 2 > l.length := by omega
  simp [substr, this]

theorem getSecs_time (line : List Char) (h m s : Int)
    (hdemo : line ≠ ['d', 'e', 'm', 'o']) (hoff : line ≠ ['o', 'f', 'f'])
    (hlen : ¬ (line.erase ':').length < 2) (hour minute : Int)
    (e1 : stoi ((line.erase ':').take 2) = Except.ok hour)
    (e2 : stoi (((line.erase ':').drop 2).take 2) = Except.ok minute) :
    getSecsRemaining (some line) h m s =
      Except.ok (if 0 + (hour - h) * 3600 + (minute - m) * 60 - s < 0
        then 0 + (hour - h) * 3600 + (minute - m) * 60 - s + 24 * 3600
        else 0 + (hour - h) * 3600 + (minute - m) * 60 - s) := by
  unfold getSecsRemaining
  simp only [if_neg hdemo, if_neg hoff, substr_zero, substr_two _ hlen, e1, e2]

theorem digitChar_facts (d : Nat) (hd : d < 10) :
    digitChar d ≠ ':' ∧ digitChar d ≠ 'd' ∧ digitChar d ≠ 'o' := by
  interval_cases d <;> decide

theorem stoi_digits (a b : Nat) (ha : a < 10) (hb : b < 10) :
    stoi [digitChar a, digitChar b] = Except.ok ((10 * a + b : Nat) : Int) := by
  interval_cases a <;> interval_cases b <;> rfl

theorem stoi_twoDigits (n : Nat) (hn : n < 100) : stoi (twoDigits n) = Except.ok (n : Int) := by
  have h := stoi_digits (n / 10) (n % 10) (by omega) (by omega)
  have e : 10 * (n / 10) + n % 10 = n := by omega
  rw [e] at h
  exact h

theorem erase_colon (a b : Nat) (ha : a < 100) (hb : b < 100) :
    (twoDigits a ++ ':' :: twoDigits b).erase ':' = twoDigits a ++ twoDigits b ∧
    (twoDigits a ++ twoDigits b).erase ':' = twoDigits a ++ twoDigits b := by
  have h1 := (digitChar_facts (a / 10) (by omega)).1
  have h2 := (digitChar_facts (a % 10) (by omega)).1
  have h3 := (digitChar_facts (b / 10) (by omega)).1
  have h4 := (digitChar_facts (b % 10) (by omega)).1
  constructor
  · simp [twoDigits, List.erase_cons, h1, h2]
  · simp [twoDigits, List.erase_cons, h1, h2, h3, h4]

theorem getSecs_valid (HH MM : Nat) (h m s : Int) (hHH : HH < 100) (hMM : MM < 100)
    (line : List Char)
    (hline : line = twoDigits HH ++ ':' :: twoDigits MM ∨ line = twoDigits HH ++ twoDigits MM) :
    getSecsRemaining (some line) h m s =
      Except.ok (if 0 + ((HH : Int) - h) * 3600 + ((MM : Int) - m) * 60 - s < 0
        then 0 + ((HH : Int) - h) * 3600 + ((MM : Int) - m) * 60 - s + 24 * 3600
        else 0 + ((HH : Int) - h) * 3600 + ((MM : Int) - m) * 60 - s) := by
  have he : line.erase ':' = twoDigits HH ++ twoDigits MM := by
    rcases hline with e | e <;> rw [e]
    · exact (erase_colon HH MM hHH hMM).1
    · exact (erase_colon HH MM hHH hMM).2
  have hd := digitChar_facts (HH / 10) (by omega)
  have hne1 : line ≠ ['d', 'e', 'm', 'o'] := by
    rcases hline with e | e <;> rw [e] <;> intro hc
    · simp [twoDigits] at hc
    · simp [twoDigits] at hc
      exact hd.2.1 hc.1
  have hne2 : line ≠ ['o', 'f', 'f'] := by
    rcases hline with e | e <;> rw [e] <;> intro hc
    · simp [twoDigits] at hc
    · simp [twoDigits] at hc
  apply getSecs_time line h m s hne1 hne2
  · rw [he]
    simp [twoDigits]
  · rw [he]
    exact stoi_twoDigits HH hHH
  · rw [he]
    exact stoi_twoDigits MM hMM

theorem isDigit_bound (c : Char) (h : c.isDigit = true) : 48 ≤ c.toNat ∧ c.toNat ≤ 57 := by
  simp only [Char.isDigit, Bool.and_eq_true, decide_eq_true_eq] at h
  obtain ⟨h1, h2⟩ := h
  have e1 : (48 : UInt32).toNat ≤ c.val.toNat := h1
  have e2 : c.val.toNat ≤ (57 : UInt32).toNat := h2
  exact ⟨e1, e2⟩

theorem digits_bound (ds : List Char) (hall : ∀ c ∈ ds, c.isDigit = true)
    (hlen : ds.length ≤ 2) :
    0 ≤ ds.foldl (fun (acc : Int) c => 10 * acc + ((c.toNat : Int) - 48)) 0 ∧
      ds.foldl (fun (acc : Int) c => 10 * acc + ((c.toNat : Int) - 48)) 0 ≤ 99 := by
  match ds, hall, hlen with
  | [], _, _ => simp
  | [a], hall, _ =>
    have ha := isDigit_bound a (hall a (by simp))
    simp only [List.foldl_cons, List.foldl_nil]
    omega
  | [a, b], hall, _ =>
    have ha := isDigit_bound a (hall a (by simp))
    have hb := isDigit_bound b (hall b (by simp))
    simp only [List.foldl_cons, List.foldl_nil]
    omega
  | _ :: _ :: _ :: _, _, hlen => simp at hlen

theorem stoi_digits_ok (neg : Bool) (s2 : List Char) (hlen : s2.length ≤ 2)
    (hne : s2.takeWhile Char.isDigit ≠ []) :
    ∃ v : Int,
      (if s2.takeWhile Char.isDigit = [] then Except.error Exn.invalid_argument
       else
        let v : Int := (s2.takeWhile Char.isDigit).foldl
          (fun acc c => 10 * acc + ((c.toNat : Int) - 48)) 0
        let r : Int := if neg then -v else v
        if r < -2147483648 ∨ r > 2147483647 then Except.error Exn.out_of_range
        else Except.ok r) = (Except.ok v : Except Exn Int) := by
  have hb := digits_bound (s2.takeWhile Char.isDigit)
    (fun c hc => List.mem_takeWhile_imp hc)
    (le_trans (List.takeWhile_sublist _).length_le hlen)
  rw [if_neg hne]
  simp only
  have hr : ¬ ((if neg then
        -(s2.takeWhile Char.isDigit).foldl (fun (acc : Int) c => 10 * acc + ((c.toNat : Int) - 48)) 0
      else (s2.takeWhile Char.isDigit).foldl
        (fun (acc : Int) c => 10 * acc + ((c.toNat : Int) - 48)) 0) < -2147483648 ∨
      (if neg then
        -(s2.takeWhile Char.isDigit).foldl (fun (acc : Int) c => 10 * acc + ((c.toNat : Int) - 48)) 0
      else (s2.takeWhile Char.isDigit).foldl
        (fun (acc : Int) c => 10 * acc + ((c.toNat : Int) - 48)) 0) > 2147483647) := by
    cases neg <;> simp <;> omega
  rw [if_neg hr]
  exact ⟨_, rfl⟩

theorem stoi_leads (f : List Char) (hlen : f.length ≤ 2) :
    (leadsNumber f = true → ∃ v, stoi f = Except.ok v) ∧
    (leadsNumber f = false → stoi f = Except.error Exn.invalid_argument) := by
  have hl1 : (f.dropWhile isspace).length ≤ 2 :=
    le_trans (List.dropWhile_sublist _).length_le hlen
  unfold stoi leadsNumber
  generalize f.dropWhile isspace = s1 at hl1
  cases s1 with
  | nil => simp
  | cons c rest =>
    have hlr : rest.length ≤ 2 := by
      simp only [List.length_cons] at hl1
      omega
    by_cases hsign : c = '-' ∨ c = '+'
    · simp only [if_pos hsign, List.head?_cons]
      cases rest with
      | nil => simp
      | cons d r =>
        by_cases hd : d.isDigit = true
        · have hne : (d :: r).takeWhile Char.isDigit ≠ [] := by
            simp [List.takeWhile, hd]
          constructor
          · intro _
            exact stoi_digits_ok _ (d :: r) hlr hne
          · intro h
            simp only at h
            rw [hd] at h
            exact absurd h (by decide)
        · have hd2 : d.isDigit = false := by simpa using hd
          constructor
          · intro h
            simp only at h
            rw [hd2] at h
            exact absurd h (by decide)
          · intro _
            simp [List.takeWhile, hd2]
    · simp only [if_neg hsign, List.head?_cons]
      by_cases hd : c.isDigit = true
      · have hne : (c :: rest).takeWhile Char.isDigit ≠ [] := by
          simp [List.takeWhile, hd]
        constructor
        · intro _
          exact stoi_digits_ok _ (c :: rest) hl1 hne
        · intro h
          rw [hd] at h
          exact absurd h (by decide)
      · have hd2 : c.isDigit = false := by simpa using hd
        constructor
        · intro h
          rw [hd2] at h
          exact absurd h (by decide)
        · intro _
          simp [List.takeWhile, hd2]

theorem take_two_len (l : List Char) : (l.take 2).length ≤ 2 := by
  rw [List.length_take]
  exact Nat.min_le_left _ _

theorem getSecs_bad (line : List Char) (h m s : Int)
    (hdemo : line ≠ ['d', 'e', 'm', 'o']) (hoff : line ≠ ['o', 'f', 'f'])
    (hbad : (line.erase ':').length < 2 ∨ leadsNumber ((line.erase ':').take 2) = false ∨
      leadsNumber (((line.erase ':').drop 2).take 2) = false) :
    ∃ e, getSecsRemaining (some line) h m s = Except.error e := by
  unfold getSecsRemaining
  simp only [if_neg hdemo, if_neg hoff, substr_zero]
  by_cases hlen : (line.erase ':').length < 2
  · exact ⟨Exn.out_of_range, by simp only [substr_two_short _ hlen]⟩
  · simp only [substr_two _ hlen]
    rcases hbad with hb | hb | hb
    · exact absurd hb hlen
    · exact ⟨Exn.invalid_argument, by
        simp only [(stoi_leads _ (take_two_len _)).2 hb]⟩
    · cases hh : stoi ((line.erase ':').take 2) with
      | error e => exact ⟨e, rfl⟩
      | ok v =>
        exact ⟨Exn.invalid_argument, by
          simp only [(stoi_leads _ (take_two_len _)).2 hb]⟩

theorem getSecs_good (line : List Char) (h m s : Int)
    (hdemo : line ≠ ['d', 'e', 'm', 'o']) (hoff : line ≠ ['o', 'f', 'f'])
    (hgood : ¬ ((line.erase ':').length < 2 ∨ leadsNumber ((line.erase ':').take 2) = false ∨
      leadsNumber (((line.erase ':').drop 2).take 2) = false)) :
    ∃ hour minute : Int, stoi ((line.erase ':').take 2) = Except.ok hour ∧
      stoi (((line.erase ':').drop 2).take 2) = Except.ok minute ∧
      getSecsRemaining (some line) h m s =
        Except.ok (if (hour - h) * 3600 + (minute - m) * 60 - s < 0
          then (hour - h) * 3600 + (minute - m) * 60 - s + 24 * 3600
          else (hour - h) * 3600 + (minute - m) * 60 - s) := by
  have hlen : ¬ (line.erase ':').length < 2 := fun hc => hgood (Or.inl hc)
  have h1 : leadsNumber ((line.erase ':').take 2) = true := by
    cases hc : leadsNumber ((line.erase ':').take 2)
    · exact absurd (Or.inr (Or.inl hc)) hgood
    · rfl
  have h2 : leadsNumber (((line.erase ':').drop 2).take 2) = true := by
    cases hc : leadsNumber (((line.erase ':').drop 2).take 2)
    · exact absurd (Or.inr (Or.inr hc)) hgood
    · rfl
  obtain ⟨hour, e1⟩ := (stoi_leads _ (take_two_len _)).1 h1
  obtain ⟨minute, e2⟩ := (stoi_leads _ (take_two_len _)).1 h2
  refine ⟨hour, minute, e1, e2, ?_⟩
  have key := getSecs_time line h m s hdemo hoff hlen hour minute e1 e2
  simp only [zero_add] at key
  exact key

/-- C15 fails on the code: the line `1x30` is neither `demo` nor `off` and has a
non-digit character, the line `12:3` has too few digits, and for both
`getSecsRemaining` returns a remaining-seconds value computed from the line instead
of a parse failure. -/
theorem C15_malformed_counterexample :
    (['1', 'x', '3', '0'] ≠ ['d', 'e', 'm', 'o'] ∧ ['1', 'x', '3', '0'] ≠ ['o', 'f', 'f'] ∧
      Char.isDigit 'x' = false ∧
      getSecsRemaining (some ['1', 'x', '3', '0']) 0 0 0 = Except.ok 5400) ∧
    (['1', '2', ':', '3'] ≠ ['d', 'e', 'm', 'o'] ∧ ['1', '2', ':', '3'] ≠ ['o', 'f', 'f'] ∧
      (['1', '2', ':', '3'].erase ':').length = 3 ∧
      getSecsRemaining (some ['1', '2', ':', '3']) 0 0 0 = Except.ok 43380) := by
  refine ⟨⟨by decide, by decide, by decide, rfl⟩, ⟨by decide, by decide, by decide, rfl⟩⟩

/-- C15 as amended: for every config line that is neither `demo` nor `off`,
`getSecsRemaining` ends in an exception, and returns no remaining-seconds value,
exactly when, after removing the first colon, fewer than two characters remain, or
the hour field (characters 0-1) or the minute field (characters 2-3) does not begin,
after optional white space and an optional sign, with a decimal digit. Every other
line, malformed or not, is accepted: a value is returned, computed from the number
that leads each field. -/
theorem C15_malformed_fails (line : List Char) (h m s : Int)
    (hdemo : line ≠ ['d', 'e', 'm', 'o']) (hoff : line ≠ ['o', 'f', 'f']) :
    ((∃ e, getSecsRemaining (some line) h m s = Except.error e) ↔
      ((line.erase ':').length < 2 ∨ leadsNumber ((line.erase ':').take 2) = false ∨
        leadsNumber (((line.erase ':').drop 2).take 2) = false)) ∧
    ((∃ e, getSecsRemaining (some line) h m s = Except.error e) →
      ∀ v, getSecsRemaining (some line) h m s ≠ Except.ok v) ∧
    (¬ ((line.erase ':').length < 2 ∨ leadsNumber ((line.erase ':').take 2) = false ∨
        leadsNumber (((line.erase ':').drop 2).take 2) = false) →
      ∃ hour minute : Int, stoi ((line.erase ':').take 2) = Except.ok hour ∧
        stoi (((line.erase ':').drop 2).take 2) = Except.ok minute ∧
        getSecsRemaining (some line) h m s =
          Except.ok (if (hour - h) * 3600 + (minute - m) * 60 - s < 0
            then (hour - h) * 3600 + (minute - m) * 60 - s + 24 * 3600
            else (hour - h) * 3600 + (minute - m) * 60 - s)) := by
  refine ⟨⟨?_, getSecs_bad line h m s hdemo hoff⟩, ?_, getSecs_good line h m s hdemo hoff⟩
  · rintro ⟨e, he⟩
    by_contra hgood
    obtain ⟨hour, minute, _, _, hv⟩ := getSecs_good line h m s hdemo hoff hgood
    rw [hv] at he
    exact Except.noConfusion he
  · rintro ⟨e, he⟩ v hv
    rw [he] at hv
    exact Except.noConfusion hv

/-- Instance of C15 as amended: the line `+x30`, whose hour field is a sign followed
by no digit. -/
theorem C15_malformed_fails_witness :
    (∃ e, getSecsRemaining (some ['+', 'x', '3', '0']) 7 30 0 = Except.error e) ∧
    (∀ v, getSecsRemaining (some ['+', 'x', '3', '0']) 7 30 0 ≠ Except.ok v) :=
  ⟨(C15_malformed_fails ['+', 'x', '3', '0'] 7 30 0 (by decide) (by decide)).1.mpr
      (Or.inr (Or.inl (by decide))),
   (C15_malformed_fails ['+', 'x', '3', '0'] 7 30 0 (by decide) (by decide)).2.1
      ((C15_malformed_fails ['+', 'x', '3', '0'] 7 30 0 (by decide) (by decide)).1.mpr
        (Or.inr (Or.inl (by decide))))⟩

/-- C16: for every config line `HH:MM` or `HHMM` with HH in 00..23 and MM in 00..59
and every local time h:m:s (h in 0..23, m and s in 0..59), `getSecsRemaining` returns
`((HH*3600 + MM*60) - (h*3600 + m*60 + s)) mod 86400`; the result is the same with
and without the colon, lies in [0, 86399], is never negative and is never the DEMO
or the OFF sentinel. -/
theorem C16_getSecsRemaining_valid (HH MM : Nat) (h m s : Int)
    (hHH : HH < 24) (hMM : MM < 60)
    (hh : 0 ≤ h ∧ h < 24) (hm : 0 ≤ m ∧ m < 60) (hs : 0 ≤ s ∧ s < 60) :
    ∃ v : Int,
      getSecsRemaining (some (twoDigits HH ++ ':' :: twoDigits MM)) h m s = Except.ok v ∧
      getSecsRemaining (some (twoDigits HH ++ twoDigits MM)) h m s = Except.ok v ∧
      v = (((HH : Int) * 3600 + (MM : Int) * 60) - (h * 3600 + m * 60 + s)) % 86400 ∧
      0 ≤ v ∧ v ≤ 86399 ∧ v ≠ DEMO ∧ v ≠ OFF := by
  have h1 := getSecs_valid HH MM h m s (by omega) (by omega) _ (Or.inl rfl)
  have h2 := getSecs_valid HH MM h m s (by omega) (by omega) _ (Or.inr rfl)
  have hH : (HH : Int) < 24 := by exact_mod_cast hHH
  have hM : (MM : Int) < 60 := by exact_mod_cast hMM
  have hH0 : (0 : Int) ≤ (HH : Int) := Int.natCast_nonneg HH
  have hM0 : (0 : Int) ≤ (MM : Int) := Int.natCast_nonneg MM
  refine ⟨_, h1, h2, ?_, ?_, ?_, ?_, ?_⟩
  · split_ifs <;> omega
  · split_ifs <;> omega
  · split_ifs <;> omega
  · unfold DEMO
    split_ifs <;> omega
  · unfold OFF
    split_ifs <;> omega

/-- Instance of C16: the line `07:05` at 23:59:59. -/
theorem C16_getSecsRemaining_valid_witness :
    ∃ v : Int,
      getSecsRemaining (some (twoDigits 7 ++ ':' :: twoDigits 5)) 23 59 59 = Except.ok v ∧
      getSecsRemaining (some (twoDigits 7 ++ twoDigits 5)) 23 59 59 = Except.ok v ∧
      v = ((((7 : Nat) : Int) * 3600 + ((5 : Nat) : Int) * 60)
        - (23 * 3600 + 59 * 60 + 59)) % 86400 ∧
      0 ≤ v ∧ v ≤ 86399 ∧ v ≠ DEMO ∧ v ≠ OFF :=
  C16_getSecsRemaining_valid 7 5 23 59 59 (by decide) (by decide)
    ⟨by decide, by decide⟩ ⟨by decide, by decide⟩ ⟨by decide, by decide⟩

/-! ## Command duration, device resolution, the rising tick -/

theorem sunriseTemp_eq (secs : Int) :
    sunriseTemp secs =
      (((3600 : ℚ) - (secs : ℚ)) / 3600) ^ 2 * ((3600 : ℚ) - (secs : ℚ)) * (4800 / 3600) + 663 := by
  unfold sunriseTemp SUNRISE_LENGTH
  push_cast
  ring

theorem nine_total (op : Nat) (hop : op ∈ opcodes) :
    ∃ tr, sendCommand op = some tr ∧ totalDelay tr = 162000 := by
  simp only [opcodes, List.mem_cons, List.mem_singleton, List.not_mem_nil, or_false] at hop
  rcases hop with h | h | h | h | h | h | h | h | h <;> rw [h] <;> exact ⟨_, rfl, rfl⟩

theorem inDevice_wf (c : Color) (h : c.inDevice) : c.wf :=
  ⟨by have := h.1; omega, by have := h.2.1; omega, by have := h.2.2; omega⟩

theorem scaled_inDevice (c : Color) (h : c.wf) : (scaled c).inDevice := by
  obtain ⟨h1, h2, h3⟩ := h
  refine ⟨?_, ?_, ?_⟩ <;> simp only [scaled] <;> omega

theorem steps_inDevice (t : Color) (ht : t.inDevice) (d : Dev) (hd : d.currentColor.inDevice) :
    ∀ step ∈ loopSteps, (step t d).currentColor.inDevice := by
  obtain ⟨t1, t2, t3⟩ := ht
  obtain ⟨d1, d2, d3⟩ := hd
  intro step hstep
  simp only [loopSteps, List.mem_cons, List.mem_singleton, List.not_mem_nil, or_false] at hstep
  rcases hstep with h | h | h | h | h | h <;> rw [h]
  · unfold stepRedUp
    split
    · exact ⟨by simp only [Dev.send]; omega, d2, d3⟩
    · exact ⟨d1, d2, d3⟩
  · unfold stepRedDn
    split
    · exact ⟨by simp only [Dev.send]; omega, d2, d3⟩
    · exact ⟨d1, d2, d3⟩
  · unfold stepGrnUp
    split
    · exact ⟨d1, by simp only [Dev.send]; omega, d3⟩
    · exact ⟨d1, d2, d3⟩
  · unfold stepGrnDn
    split
    · exact ⟨d1, by simp only [Dev.send]; omega, d3⟩
    · exact ⟨d1, d2, d3⟩
  · unfold stepBluUp
    split
    · exact ⟨d1, d2, by simp only [Dev.send]; omega⟩
    · exact ⟨d1, d2, d3⟩
  · unfold stepBluDn
    split
    · exact ⟨d1, d2, by simp only [Dev.send]; omega⟩
    · exact ⟨d1, d2, d3⟩

theorem body_inDevice (t : Color) (ht : t.inDevice) (d : Dev) (hd : d.currentColor.inDevice) :
    ∀ p ∈ pointsOf t loopSteps d, p.currentColor.inDevice := by
  have st := fun (x : Dev) (hx : x.currentColor.inDevice) => steps_inDevice t ht x hx
  have h1 := st d hd stepRedUp (by simp [loopSteps])
  have h2 := st _ h1 stepRedDn (by simp [loopSteps])
  have h3 := st _ h2 stepGrnUp (by simp [loopSteps])
  have h4 := st _ h3 stepGrnDn (by simp [loopSteps])
  have h5 := st _ h4 stepBluUp (by simp [loopSteps])
  have h6 := st _ h5 stepBluDn (by simp [loopSteps])
  intro p hp
  rw [pointsOf_loopSteps] at hp
  simp only [List.mem_cons, List.mem_singleton, List.not_mem_nil, or_false] at hp
  rcases hp with hp | hp | hp | hp | hp | hp <;> rw [hp]
  · exact h1
  · exact h2
  · exact h3
  · exact h4
  · exact h5
  · exact h6

theorem loopPoints_inDevice (t : Color) (ht : t.inDevice) :
    ∀ (fuel : Nat) (d : Dev), d.currentColor.inDevice →
      ∀ p ∈ loopPoints t fuel d, p.currentColor.inDevice := by
  intro fuel
  induction fuel with
  | zero =>
    intro d _ p hp
    simp [loopPoints] at hp
  | succ fuel ih =>
    intro d hd p hp
    unfold loopPoints at hp
    split at hp
    · rcases List.mem_append.mp hp with hp1 | hp2
      · exact body_inDevice t ht d hd p hp1
      · exact ih (loopBody t d) (body_inDevice t ht d hd _ (loopBody_mem_points t d)) p hp2
    · simp at hp

theorem setColorPoints_inDevice (fuel : Nat) (target : Color) (ht : target.wf) (d : Dev)
    (hd : d.currentColor.inDevice) :
    ∀ p ∈ setColorPoints fuel target d, p.currentColor.inDevice := by
  intro p hp
  unfold setColorPoints at hp
  rcases List.mem_cons.mp hp with h0 | hp
  · rw [h0]
    exact hd
  rcases List.mem_cons.mp hp with h1 | hp
  · rw [h1]
    exact hd
  · rw [mulAssign_quarter target ht] at hp
    exact loopPoints_inDevice (scaled target) (scaled_inDevice target ht) fuel
      (setColorEntry target d) hd p hp

theorem runOps_inDevice (fuel : Nat) (hf : 765 ≤ fuel) :
    ∀ (ops : List Op) (d : Dev), (∀ t, Op.set t ∈ ops → t.wf) → d.currentColor.inDevice →
      ∃ d1, runOps fuel ops d = some d1 ∧ d1.currentColor.inDevice := by
  intro ops
  induction ops with
  | nil =>
    intro d _ hd
    exact ⟨d, rfl, hd⟩
  | cons op rest ih =>
    intro d hops hd
    have hrest : ∀ t, Op.set t ∈ rest → t.wf := fun t ht => hops t (List.mem_cons_of_mem _ ht)
    cases op with
    | set target =>
      have ht : target.wf := hops target (List.mem_cons_self _ _)
      obtain ⟨d1, _, hset, hcur, _, _⟩ :=
        setColor_total fuel hf target d ht (inDevice_wf _ hd)
      have h1 : d1.currentColor.inDevice := by
        rw [hcur]
        exact scaled_inDevice target ht
      obtain ⟨d2, hrun, h2⟩ := ih d1 hrest h1
      exact ⟨d2, by simp only [runOps, hset]; exact hrun, h2⟩
    | reset =>
      have h1 : (resetColor d).currentColor.inDevice := by
        rw [resetColor_eq]
        exact ⟨Nat.zero_le _, Nat.zero_le _, Nat.zero_le _⟩
      obtain ⟨d2, hrun, h2⟩ := ih (resetColor d) hrest h1
      exact ⟨d2, by simp only [runOps]; exact hrun, h2⟩

/-- C17 fails on the code: one `sendCommand(RED_UP)` issues delays that sum to
162000 us, which is not within 5000 us of 115000 us. -/
theorem C17_duration_counterexample :
    ∃ tr, sendCommand RED_UP = some tr ∧ totalDelay tr = 162000 ∧
      ¬ (115000 - 5000 ≤ totalDelay tr ∧ totalDelay tr ≤ 115000 + 5000) := by
  refine ⟨_, rfl, rfl, ?_⟩
  intro h
  have e : ∀ tr, sendCommand RED_UP = some tr → totalDelay tr = 162000 := by
    intro tr htr
    obtain ⟨tr2, h2, h3⟩ := nine_total RED_UP (by simp [opcodes])
    rw [h2] at htr
    rw [← Option.some.inj htr]
    exact h3
  have h1 := e _ rfl
  omega

/-- C17 as amended: for each of the nine defined opcodes, the sum of all the
microsecond delays one `sendCommand` call issues (header, 32 bit-frames, footer gap
and inter-command guard) is exactly 162000 us, about 162 ms: 100000 us of guard and
62000 us of frame. -/
theorem C17_duration_162ms (op : Nat)
    (hop : op ∈ [RED_UP, RED_DN, GRN_UP, GRN_DN, BLU_UP, BLU_DN, POWER, DIY1, DIY2]) :
    ∃ tr, sendCommand op = some tr ∧ totalDelay tr = 162000 ∧
      totalDelay tr = (9000 + 4500 + 32 * 500 + (8 * 500 + 8 * 1500) + (8 * 500 + 8 * 1500) + 500)
        + 100000 := by
  obtain ⟨tr, h1, h2⟩ := nine_total op hop
  exact ⟨tr, h1, h2, h2⟩

/-- Instance of C17 as amended, at the opcode `POWER`. -/
theorem C17_duration_162ms_witness :
    ∃ tr, sendCommand POWER = some tr ∧ totalDelay tr = 162000 ∧
      totalDelay tr = (9000 + 4500 + 32 * 500 + (8 * 500 + 8 * 1500) + (8 * 500 + 8 * 1500) + 500)
        + 100000 :=
  C17_duration_162ms POWER (by simp)

/-- C18: DeviceState stays in device resolution. Starting from the DeviceState
(0,0,0), any sequence of `setColor` calls (targets with channels in 0..255) and
`resetColor` calls returns, with every channel of the DeviceState in 0..63; and at
every point of a further `setColor` call from there (entry, after DIY1, after each
statement of each loop iteration) every channel is in 0..63 as well, so that no
counter wraps around. -/
theorem C18_device_resolution (ops : List Op) (target : Color) (fuel : Nat) (d0 : Dev)
    (hf : 765 ≤ fuel) (h0 : d0.currentColor = Color.mk 0 0 0)
    (hops : ∀ t, Op.set t ∈ ops → t.wf) (ht : target.wf) :
    ∃ d1, runOps fuel ops d0 = some d1 ∧
      (d1.currentColor.r ≤ 63 ∧ d1.currentColor.g ≤ 63 ∧ d1.currentColor.b ≤ 63) ∧
      (∀ p ∈ setColorPoints fuel target d1,
        p.currentColor.r ≤ 63 ∧ p.currentColor.g ≤ 63 ∧ p.currentColor.b ≤ 63) ∧
      (∃ d2, setColor fuel target d1 = some d2 ∧ d2 ∈ setColorPoints fuel target d1) := by
  have hd0 : d0.currentColor.inDevice := by
    rw [h0]
    exact ⟨Nat.zero_le _, Nat.zero_le _, Nat.zero_le _⟩
  obtain ⟨d1, hrun, h1⟩ := runOps_inDevice fuel hf ops d0 hops hd0
  obtain ⟨d2, _, hset, _⟩ := setColor_total fuel hf target d1 ht (inDevice_wf _ h1)
  exact ⟨d1, hrun, h1, setColorPoints_inDevice fuel target ht d1 h1,
    d2, hset, setColor_mem_points fuel target d1 d2 hset⟩

/-- Instance of C18: two `setColor` calls around a `resetColor`, then a call to
(255,255,255). -/
theorem C18_device_resolution_witness :
    ∃ d1, runOps 765 [Op.set (Color.mk 255 130 7), Op.reset, Op.set (Color.mk 0 255 16)]
        (Dev.mk (Color.mk 0 0 0) [] []) = some d1 ∧
      (d1.currentColor.r ≤ 63 ∧ d1.currentColor.g ≤ 63 ∧ d1.currentColor.b ≤ 63) ∧
      (∀ p ∈ setColorPoints 765 (Color.mk 255 255 255) d1,
        p.currentColor.r ≤ 63 ∧ p.currentColor.g ≤ 63 ∧ p.currentColor.b ≤ 63) ∧
      (∃ d2, setColor 765 (Color.mk 255 255 255) d1 = some d2 ∧
        d2 ∈ setColorPoints 765 (Color.mk 255 255 255) d1) :=
  C18_device_resolution [Op.set (Color.mk 255 130 7), Op.reset, Op.set (Color.mk 0 255 16)]
    (Color.mk 255 255 255) 765 (Dev.mk (Color.mk 0 0 0) [] []) (by decide) rfl
    (by
      intro t ht
      simp at ht
      rcases ht with e | e
      · rw [e]
        decide
      · rw [e]
        decide)
    (by decide)

/-- C19: every temperature the program passes to `getBB` is at least 663 K. For a
tick with `0 <= secsRemaining <= 3600` the temperature
`((3600 - s)/3600)^2 * (3600 - s) * (4800/3600) + 663` lies in [663, 5463] and is 663
at `s = 3600`; for a demo iteration `i` in 0..59 the temperature
`(i/60)^2 * i * 80 + 663` lies in [663, 5463]; hence `temp/100 - 6.59 > 0` and the
base of the brightness power of `getBB` is strictly positive. -/
theorem C19_temperature_at_least_663 (secs : Int) (i : Nat)
    (h0 : 0 ≤ secs) (h1 : secs ≤ 3600) (hi : i < 60) :
    (sunriseTemp secs =
        (((3600 : ℚ) - (secs : ℚ)) / 3600) ^ 2 * ((3600 : ℚ) - (secs : ℚ)) * (4800 / 3600) + 663 ∧
      663 ≤ sunriseTemp secs ∧ sunriseTemp secs ≤ 5463 ∧
      0 < sunriseTemp secs / 100 - 6.59 ∧ 0 < (sunriseTemp secs / 100 - 6.59) / 35) ∧
    sunriseTemp 3600 = 663 ∧
    (demoTemp i = ((i : ℚ) / 60) ^ 2 * (i : ℚ) * 80 + 663 ∧
      663 ≤ demoTemp i ∧ demoTemp i ≤ 5463 ∧
      0 < demoTemp i / 100 - 6.59 ∧ 0 < (demoTemp i / 100 - 6.59) / 35) := by
  have key : ∀ t : ℚ, 663 ≤ t → 0 < t / 100 - 6.59 ∧ 0 < (t / 100 - 6.59) / 35 := by
    intro t ht
    have h : 0 < t / 100 - 6.59 := by
      norm_num
      linarith
    exact ⟨h, div_pos h (by norm_num)⟩
  obtain ⟨a1, a2⟩ := sunriseTemp_bounds secs h0 h1
  obtain ⟨b1, b2⟩ := demoTemp_bounds i hi
  refine ⟨⟨sunriseTemp_eq secs, a1, a2, (key _ a1).1, (key _ a1).2⟩, ?_,
    ⟨demoTemp_eq i, b1, b2, (key _ b1).1, (key _ b1).2⟩⟩
  norm_num [sunriseTemp, SUNRISE_LENGTH]

/-- Instance of C19: the tick at `secsRemaining = 0` and the last demo iteration. -/
theorem C19_temperature_at_least_663_witness :
    (663 ≤ sunriseTemp 0 ∧ sunriseTemp 0 ≤ 5463) ∧ (663 ≤ demoTemp 59 ∧ demoTemp 59 ≤ 5463) :=
  ⟨⟨(C19_temperature_at_least_663 0 59 (by decide) (by decide) (by decide)).1.2.1,
    (C19_temperature_at_least_663 0 59 (by decide) (by decide) (by decide)).1.2.2.1⟩,
   ⟨(C19_temperature_at_least_663 0 59 (by decide) (by decide) (by decide)).2.2.2.1,
    (C19_temperature_at_least_663 0 59 (by decide) (by decide) (by decide)).2.2.2.2.1⟩⟩

/-- C20: for every scheduler tick with `0 <= secsRemaining <= SUNRISE_LENGTH`,
whatever the prior `inProgress` and the prior DeviceState, the tick returns, after it
`inProgress` is true and the DeviceState is the scaled colour
`(c.r/4, c.g/4, c.b/4)` with
`c = getBB(((3600 - s)/3600)^2 * (3600 - s) * (4800/3600) + 663)`; when the tick began
with `inProgress` false, the whole `resetColor` sequence is sent before the
`setColor` sequence in the same tick; when it began with `inProgress` true only the
`setColor` sequence is sent. -/
theorem C20_rising_tick (getBB : ℚ → Color) (fuel : Nat) (secs : Int) (s : Sched)
    (hbb : ∀ t, (getBB t).wf) (hf : 765 ≤ fuel) (hd : s.dev.currentColor.wf)
    (h0 : 0 ≤ secs) (h1 : secs ≤ SUNRISE_LENGTH) :
    ∃ s1 steps c, tick getBB fuel secs s = some s1 ∧
      c = getBB ((((3600 : ℚ) - (secs : ℚ)) / 3600) ^ 2 * ((3600 : ℚ) - (secs : ℚ))
        * (4800 / 3600) + 663) ∧
      s1.inProgress = true ∧
      s1.dev.currentColor = { r := c.r / 4, g := c.g / 4, b := c.b / 4 } ∧
      (∀ op ∈ steps, op ∈ [RED_UP, RED_DN, GRN_UP, GRN_DN, BLU_UP, BLU_DN]) ∧
      (s.inProgress = false →
        s1.dev.sent = s.dev.sent ++ (List.replicate 80 [RED_DN, GRN_DN, BLU_DN]).flatten
          ++ DIY1 :: steps ∧
        s1.dev.calls = s.dev.calls ++ [Call.resetColor, Call.setColor c]) ∧
      (s.inProgress = true →
        s1.dev.sent = s.dev.sent ++ DIY1 :: steps ∧
        s1.dev.calls = s.dev.calls ++ [Call.setColor c]) := by
  have h2 : secs ≤ 3600 := h1
  have hw : (if s.inProgress then s.dev else resetColor s.dev).currentColor.wf := by
    cases s.inProgress
    · simp only [Bool.false_eq_true, if_false, resetColor_eq]
      exact (by decide : (Color.mk 0 0 0).wf)
    · simpa using hd
  obtain ⟨d1, n, steps, hrun, hcur, hcalls, hsent, _, hsteps⟩ :=
    setColorRun_spec fuel (getBB (sunriseTemp secs)) _ (hbb _) hw
      (le_trans (manhattan_le _ _ hw (hbb _)) hf)
  have hset : setColor fuel (getBB (sunriseTemp secs))
      (if s.inProgress then s.dev else resetColor s.dev) = some d1 := by
    simp [setColor, hrun]
  refine ⟨{ dev := d1, inProgress := true }, steps, getBB (sunriseTemp secs), ?_, ?_, rfl,
    hcur, hsteps.2.2.2.2.2.2.2, ?_, ?_⟩
  · rw [tick_rise getBB fuel secs s h0 h2, hset]
    rfl
  · rw [sunriseTemp_eq]
  · intro hp
    rw [hp] at hsent hcalls
    simp only [Bool.false_eq_true, if_false, resetColor_eq] at hsent hcalls
    exact ⟨hsent, by rw [hcalls]; simp⟩
  · intro hp
    rw [hp] at hsent hcalls
    simp only [if_true] at hsent hcalls
    exact ⟨hsent, hcalls⟩

/-- Instance of C20: the tick at `secsRemaining = 1800` from the initial state, with
a constant `getBB`. -/
theorem C20_rising_tick_witness :
    ∃ s1, tick (fun _ => Color.mk 255 130 7) 765 1800
        (Sched.mk (Dev.mk (Color.mk 0 0 0) [] []) false) = some s1 ∧
      s1.inProgress = true ∧
      s1.dev.currentColor = { r := 255 / 4, g := 130 / 4, b := 7 / 4 } := by
  obtain ⟨s1, _, c, h1, h2, h3, h4, _⟩ :=
    C20_rising_tick (fun _ => Color.mk 255 130 7) 765 1800
      (Sched.mk (Dev.mk (Color.mk 0 0 0) [] []) false)
      (fun _ => (by decide : (Color.mk 255 130 7).wf)) (by decide) (by decide) (by decide)
      (by decide)
  refine ⟨s1, h1, h3, ?_⟩
  rw [h4, h2]

end Dawn

